import Mathlib

/-!
# whereabouts/sdk : the document-store binding `model/mongoc/mongo.go`

A shallow embedding of `MongoDB.handleTimeAuto`, `Insert`, `Replace`, `ReplaceId`,
`ReplaceAll`, `Modify`, `ModifyAll` and `FindObjectId`.

* Go values of type `interface{}` that reach `handleTimeAuto` are the type `Any`.
  A document map is `map[string]interface{}` (`bson.M` has the same underlying type);
  it is a reference that may be nil, so it is `GMap = Option Fields`. Maps of other
  types, which `reflect` also reports as `reflect.Map`, are `TMap`.
* A Go call either returns normally, returns a non-nil `error`, or panics: `Res`.
* The driver (`*mgo.Collection`) is a collaborator: a `Driver σ` answers each call from
  an abstract state `σ`, and every operation records the driver calls it issues, in
  order, in a trace.
* `handleTimeAuto` writes through `reflect.Value.SetMapIndex` into the map it was given;
  the embedding therefore returns the caller's value after the call next to the result.
-/

namespace Mongoc

/-- A value stored under a field of a document. The store never inspects it. -/
inductive Val where
  | null
  | bool (b : Bool)
  | int (i : Int)
  | str (s : String)
  deriving DecidableEq, Repr

/-- The entries of a non-nil `map[string]interface{}`. -/
abbrev Fields := List (String × Val)

/-- A Go map value `map[string]interface{}`: `none` is the nil map. -/
abbrev GMap := Option Fields

/-- Go `m[k]` with the comma-ok form, `reflect.Value.MapIndex` followed by `IsValid`. -/
def mapIndex : Fields → String → Option Val
  | [], _ => none
  | (k', v) :: rest, k => if k' = k then some v else mapIndex rest k

/-- Go `m[k] = v`, `reflect.Value.SetMapIndex`, on a non-nil map. -/
def setMapIndex : Fields → String → Val → Fields
  | [], k, v => [(k, v)]
  | (k', v') :: rest, k, v =>
    if k' = k then (k, v) :: rest else (k', v') :: setMapIndex rest k v

/-- Go `delete(m, k)` on a non-nil map. -/
def mapDelete (m : Fields) (k : String) : Fields :=
  m.filter (fun e => decide (e.1 ≠ k))

/-- Go `reflect.Value.MapKeys`. -/
def mapKeys (m : Fields) : List String :=
  m.map Prod.fst

/-- The keys of a possibly nil map; the nil map has none. -/
def GMap.keys : GMap → List String
  | none => []
  | some m => mapKeys m

/-- Go `m[k]` with the comma-ok form on a possibly nil map: reading a nil map finds nothing. -/
def GMap.index : GMap → String → Option Val
  | none, _ => none
  | some m, k => mapIndex m k

/-- Go `delete(m, k)` on a possibly nil map: a no-op on the nil map. -/
def GMap.delete : GMap → String → GMap
  | none, _ => none
  | some m, k => some (mapDelete m k)

/-- The element type of a Go map type, as far as `reflect` assignability of the time
text (a Go `string`) is concerned. -/
inductive ElemType where
  /-- `interface{}` -/
  | iface
  /-- `string` -/
  | string
  /-- any other element type, such as `int`: a `string` is not assignable to it -/
  | other
  deriving DecidableEq, Repr

/-- Whether `reflect.Value.SetMapIndex` accepts an element of type `string`. -/
def ElemType.holdsString : ElemType → Bool
  | .iface => true
  | .string => true
  | .other => false

/-- The entries of a non-nil map whose keys are not of string kind. -/
abbrev ValFields := List (Val × Val)

/-- A Go map with keys that are not of string kind: `none` is the nil map. -/
abbrev VMap := Option ValFields

/-- `reflect.Value.MapIndex` followed by `IsValid`, on a map whose keys are not of
string kind. -/
def valIndex : ValFields → Val → Option Val
  | [], _ => none
  | (k', v) :: rest, k => if k' = k then some v else valIndex rest k

/-- `reflect.Value.SetMapIndex` on a non-nil map whose keys are not of string kind. -/
def valSet : ValFields → Val → Val → ValFields
  | [], k, v => [(k, v)]
  | (k', v') :: rest, k, v =>
    if k' = k then (k, v) :: rest else (k', v') :: valSet rest k v

/-- Go `m[k]` with the comma-ok form on a possibly nil map with keys not of string kind. -/
def VMap.index : VMap → Val → Option Val
  | none, _ => none
  | some m, k => valIndex m k

/-- Go `len(m)` of a possibly nil map with keys not of string kind. -/
def VMap.len : VMap → Nat
  | none => 0
  | some m => m.length

/-- A Go map of a type other than `map[string]interface{}`, possibly nil. -/
inductive TMap where
  /-- keys of type `string` (`named = false`) or of a defined type whose underlying
  type is `string` (`named = true`), elements of type `et` -/
  | strKeyed (named : Bool) (et : ElemType) (m : GMap)
  /-- keys of type `interface{}` (`keyType = none`) or of a type that is not of string
  kind, such as `int` (`keyType = some "int"`, the name as `reflect.Type.String`
  prints it), elements of type `et` -/
  | valKeyed (keyType : Option String) (et : ElemType) (m : VMap)
  deriving DecidableEq, Repr

/-- A Go value passed as `doc interface{}`. -/
inductive Any where
  /-- the untyped nil interface -/
  | nil
  | bool (b : Bool)
  | int (i : Int)
  | str (s : String)
  /-- a slice or array -/
  | seq (xs : List Val)
  /-- a `map[string]interface{}`, possibly the nil map -/
  | mapv (m : GMap)
  /-- a struct value, with its fields -/
  | structv (fs : Fields)
  /-- a typed nil pointer -/
  | nilptr
  /-- a non-nil pointer to `target` -/
  | ptr (target : Any)
  /-- a map of a type other than `map[string]interface{}`, possibly the nil map -/
  | tmap (t : TMap)
  /-- a non-nil pointer to a variable of type `interface{}` that holds `held` -/
  | ptrIface (held : Any)
  deriving DecidableEq, Repr

/-- Go `error` values produced or passed on by this package. -/
inductive Err where
  /-- `errors.New(fmt.Sprintf("the doc %+v is not a map or struct", v.Interface()))` -/
  | notMapOrStruct (v : Any)
  /-- `errors.New(fmt.Sprintf("do not find the old doc by this selector %+v", err))` -/
  | oldDocNotFound (cause : Err)
  /-- `errors.New(fmt.Sprint("doc does not allow nil!"))` -/
  | docNil
  /-- `mgo.ErrNotFound` -/
  | notFound
  /-- any other error of the driver or of `mapper` -/
  | other (msg : String)
  deriving DecidableEq, Repr

/-- Run-time panics that the code can raise. -/
inductive Panic where
  /-- `reflect: call of reflect.Value.Interface on zero Value` -/
  | interfaceOnZeroValue
  /-- `assignment to entry in nil map` -/
  | assignNilMap
  /-- `invalid input to ObjectIdHex` -/
  | invalidObjectIdHex (s : String)
  /-- `reflect.Value.MapIndex` or `reflect.Value.SetMapIndex`: value of type string is
  not assignable to the key or element type of the map -/
  | notAssignable
  deriving DecidableEq, Repr

/-- The outcome of a Go call: normal return, non-nil `error`, or panic. -/
inductive Res (α : Type) where
  | ok (a : α)
  | err (e : Err)
  | panic (p : Panic)
  deriving DecidableEq, Repr

/-- The `reflect.Value` left by `for v.Kind() == reflect.Ptr { v = v.Elem() }`. -/
inductive RValue where
  /-- the zero Value, `Kind() == reflect.Invalid`: `Elem` of a nil pointer -/
  | zero
  /-- a valid Value holding `a`, which is not a pointer -/
  | val (a : Any)
  /-- a valid Value of `Kind() == reflect.Interface`, `Elem` of a pointer to an
  `interface{}` variable that holds `held`; its `Interface()` is `held` -/
  | iface (held : Any)
  deriving DecidableEq, Repr

/-- The loop `for v.Kind() == reflect.Ptr { v = v.Elem() }` of `handleTimeAuto`. -/
def elemLoop : Any → RValue
  | .nilptr => .zero
  | .ptr t => elemLoop t
  | .ptrIface held => .iface held
  | a => .val a

/-- The caller's value once the map at the end of its pointer chain holds `m`. -/
def storeMap : Any → GMap → Any
  | .ptr t, m => .ptr (storeMap t m)
  | .mapv _, m => .mapv m
  | a, _ => a

/-- The caller's value once the typed map at the end of its pointer chain is `t`. -/
def storeTMap : Any → TMap → Any
  | .ptr x, t => .ptr (storeTMap x t)
  | .tmap _, t => .tmap t
  | a, _ => a

/-- The timestamp flags of `Client.GetConfig()`. -/
structure Config where
  UpdateTimeAuto : Bool
  InsertTimeAuto : Bool
  deriving DecidableEq, Repr

/-- What a `MongoDB` value reaches through its client and the `utils` packages:
the configuration, `mapper.Struct2Map` and the formatted clock `timer.Format(time.Now())`. -/
structure Store where
  config : Config
  /-- `mapper.Struct2Map`, applied to a struct value -/
  Struct2Map : Fields → Except Err GMap
  /-- the n-th reading of `timer.Format(time.Now())` within one operation, a Go `string` -/
  clock : Nat → Val

/-- Lines 96-99 of `handleTimeAuto`: `ret := make(map[string]interface{})` and then
`ret[key.String()] = v.MapIndex(key).Interface()` for each `key` of `v.MapKeys()`. -/
def copyMap (fs : Fields) : Fields :=
  (mapKeys fs).foldl
    (fun (ret : Fields) key =>
      match mapIndex fs key with
      | some x => setMapIndex ret key x
      | none => ret)
    []

/-- Lines 90-95 of `handleTimeAuto`: the two guarded `v.SetMapIndex` calls on the
non-empty map `fs`. -/
def injectTimes (cfg : Config) (now : Val) (isInsert : Bool) (fs : Fields) : Fields :=
  let fs1 :=
    if cfg.UpdateTimeAuto && !(mapIndex fs "update_time").isSome then
      setMapIndex fs "update_time" now
    else fs
  if cfg.InsertTimeAuto && !(mapIndex fs1 "create_time").isSome && isInsert then
    setMapIndex fs1 "create_time" now
  else fs1

/-- Lines 87-100 of `handleTimeAuto`, on the map `m` that `v` refers to: the pair of
that map after the call and the returned `ret`. -/
def timeAutoMap (cfg : Config) (now : Val) (isInsert : Bool) (m : GMap) : GMap × GMap :=
  match m with
  | none => (none, none)
  | some fs =>
    if (mapKeys fs).length = 0 then (some fs, none)
    else (some (injectTimes cfg now isInsert fs), some (copyMap (injectTimes cfg now isInsert fs)))

/-- One of the two guarded writes of lines 90-95 through `reflect`, on a map in state
`m`: when `flag` is set, `v.MapIndex(reflect.ValueOf(key))` panics unless a `string`
is assignable to the key type (`keyOk`); when the key is absent (`present = false`) and
the rest of the condition holds (`doSet`), `v.SetMapIndex` panics unless a `string` is
assignable to the element type (`elemOk`) and otherwise leaves the map as `set`.
`none` is the panic. -/
def guardedSet {μ : Type} (flag keyOk present doSet elemOk : Bool) (m set : μ) : Option μ :=
  if flag then
    if !keyOk then none
    else if present then some m
    else if doSet then (if elemOk then some set else none)
    else some m
  else some m

/-- The text of `key.String()` for a key that is not of string kind. -/
def keyText : Option String → String
  | none => "<interface {} Value>"
  | some name => "<" ++ name ++ " Value>"

/-- Lines 96-99 of `handleTimeAuto` on a map with keys not of string kind: every key
is written to `ret` under the same text `key.String()`. -/
def copyValMap (keyType : Option String) (es : ValFields) : Fields :=
  (es.map Prod.fst).foldl
    (fun (ret : Fields) key =>
      match valIndex es key with
      | some x => setMapIndex ret (keyText keyType) x
      | none => ret)
    []

/-- Lines 87-100 of `handleTimeAuto` on a map of a type other than
`map[string]interface{}`: the map after the call and the outcome. -/
def timeAutoTMap (cfg : Config) (now : Val) (isInsert : Bool) : TMap → TMap × Res GMap
  | .strKeyed named et none => (.strKeyed named et none, .ok none)
  | .strKeyed named et (some fs) =>
    if (mapKeys fs).length = 0 then (.strKeyed named et (some fs), .ok none)
    else
      match guardedSet cfg.UpdateTimeAuto (!named) (mapIndex fs "update_time").isSome true
          et.holdsString fs (setMapIndex fs "update_time" now) with
      | none => (.strKeyed named et (some fs), .panic .notAssignable)
      | some fs1 =>
        match guardedSet cfg.InsertTimeAuto (!named) (mapIndex fs1 "create_time").isSome
            isInsert et.holdsString fs1 (setMapIndex fs1 "create_time" now) with
        | none => (.strKeyed named et (some fs1), .panic .notAssignable)
        | some fs2 => (.strKeyed named et (some fs2), .ok (some (copyMap fs2)))
  | .valKeyed keyType et none => (.valKeyed keyType et none, .ok none)
  | .valKeyed keyType et (some es) =>
    if (es.map Prod.fst).length = 0 then (.valKeyed keyType et (some es), .ok none)
    else
      match guardedSet cfg.UpdateTimeAuto keyType.isNone
          (valIndex es (.str "update_time")).isSome true
          et.holdsString es (valSet es (.str "update_time") now) with
      | none => (.valKeyed keyType et (some es), .panic .notAssignable)
      | some es1 =>
        match guardedSet cfg.InsertTimeAuto keyType.isNone
            (valIndex es1 (.str "create_time")).isSome isInsert
            et.holdsString es1 (valSet es1 (.str "create_time") now) with
        | none => (.valKeyed keyType et (some es1), .panic .notAssignable)
        | some es2 => (.valKeyed keyType et (some es2), .ok (some (copyValMap keyType es2)))

/-- `MongoDB.handleTimeAuto`. The first component is the caller's `doc` after the call
(the map it refers to may have been written to), the second the returned pair. -/
def handleTimeAuto (db : Store) (now : Val) (doc : Any) (isInsert : Bool) : Any × Res GMap :=
  match doc with
  | .nil => (doc, .ok none)
  | _ =>
    match elemLoop doc with
    | .zero => (doc, .panic .interfaceOnZeroValue)
    | .val (.structv fs) =>
      match db.Struct2Map fs with
      | .error e => (doc, .err e)
      | .ok m => (doc, .ok (timeAutoMap db.config now isInsert m).2)
    | .val (.mapv m) =>
      let r := timeAutoMap db.config now isInsert m
      (storeMap doc r.1, .ok r.2)
    | .val (.tmap t) =>
      let r := timeAutoTMap db.config now isInsert t
      (storeTMap doc r.1, r.2)
    | .iface held => (doc, .err (.notMapOrStruct held))
    | .val a => (doc, .err (.notMapOrStruct a))

/-- The second argument of `c.Update` / `c.UpdateAll`: a whole document, or
`bson.M{setting: v}`. -/
inductive Upd where
  | doc (d : GMap)
  | op (setting : String) (d : GMap)
  deriving DecidableEq, Repr

/-- A `bson.ObjectId`: the decoded bytes. -/
abbrev ObjectId := List Nat

/-- A call issued to the driver's `*mgo.Collection`. -/
inductive Call where
  /-- `c.Insert(out...)` -/
  | insert (docs : List GMap)
  /-- `c.Update(selector, update)` -/
  | update (selector : Any) (u : Upd)
  /-- `c.UpdateAll(selector, update)` -/
  | updateAll (selector : Any) (u : Upd)
  /-- `c.Find(selector)`, `Select(projection)` when a picker is given, `One(ret)` -/
  | findOne (selector : Any) (projection : Option Fields)
  /-- `c.FindId(id)`, `Select(projection)` when a picker is given, `One(ret)` -/
  | findId (id : ObjectId) (projection : Option Fields)
  deriving DecidableEq, Repr

/-- The `mgo.ChangeInfo` of a bulk write. -/
structure ChangeInfo where
  Updated : Nat
  Removed : Nat
  Matched : Nat
  deriving DecidableEq, Repr

/-- The driver as a collaborator: how `*mgo.Collection` answers each call from its
state `σ`. A write answers with its `error` (`none` is nil), a read with the decoded
document or its `error`. -/
structure Driver (σ : Type) where
  insert : σ → List GMap → σ × Option Err
  update : σ → Any → Upd → σ × Option Err
  updateAll : σ → Any → Upd → σ × Option ChangeInfo × Option Err
  findOne : σ → Any → Option Fields → σ × Except Err Fields
  findId : σ → ObjectId → Option Fields → σ × Except Err Fields

/-- An operation that was run: the driver state it leaves, the driver calls it issued
in order, and how it ended. -/
structure Run (σ : Type) (α : Type) where
  st : σ
  trace : List Call
  res : Res α

/-- A Go `error` result as an outcome: nil is a normal return. -/
def ofError : Option Err → Res Unit
  | none => .ok ()
  | some e => .err e

/-- Modelled from the spec: `Client.DoWithContext` (the `Client` interface is not in
the sources) "executes a caller-supplied unit of work against a collection handle":
the unit of work runs once on the collection and its outcome is the outcome of the call. -/
def DoWithContext {σ α : Type} (st : σ) (f : σ → Run σ α) : Run σ α :=
  f st

/-- `MongoDB.handlePicker`: `ret[field] = 1` for each field of the picker. -/
def handlePicker (picker : List String) : Fields :=
  picker.foldl (fun ret field => setMapIndex ret field (.int 1)) []

/-- The `if picker != nil { query = query.Select(db.handlePicker(picker)) }` step. -/
def selectOf (picker : Option (List String)) : Option Fields :=
  picker.map handlePicker

/-- `MongoDB.FindOne` reading into a `*map[string]interface{}`: the decoded document
or the driver's error. -/
def FindOne {σ : Type} (drv : Driver σ) (st : σ) (selector : Any)
    (picker : Option (List String)) : Run σ Fields :=
  DoWithContext st fun st =>
    let r := drv.findOne st selector (selectOf picker)
    match r.2 with
    | .ok d => ⟨r.1, [.findOne selector (selectOf picker)], .ok d⟩
    | .error e => ⟨r.1, [.findOne selector (selectOf picker)], .err e⟩

/-- The loop of `MongoDB.Insert` over the documents from the `n`-th on: `out` is the
slice built so far. -/
def insertLoop (db : Store) : Nat → List Any → List GMap → Res (List GMap)
  | _, [], out => .ok out
  | n, doc :: rest, out =>
    match (handleTimeAuto db (db.clock n) doc true).2 with
    | .err e => .err e
    | .panic p => .panic p
    | .ok v => insertLoop db (n + 1) rest (out ++ [GMap.delete v "_id"])

/-- `MongoDB.Insert`. -/
def Insert {σ : Type} (db : Store) (drv : Driver σ) (st : σ) (doc : List Any) : Run σ Unit :=
  DoWithContext st fun st =>
    match insertLoop db 0 doc [] with
    | .err e => ⟨st, [], .err e⟩
    | .panic p => ⟨st, [], .panic p⟩
    | .ok out =>
      let r := drv.insert st out
      ⟨r.1, [.insert out], ofError r.2⟩

/-- `MongoDB.Replace`. -/
def Replace {σ : Type} (db : Store) (drv : Driver σ) (st : σ) (selector update : Any) :
    Run σ Unit :=
  DoWithContext st fun st =>
    match (handleTimeAuto db (db.clock 0) update true).2 with
    | .err e => ⟨st, [], .err e⟩
    | .panic p => ⟨st, [], .panic p⟩
    | .ok v =>
      let newDoc := GMap.delete v "_id"
      let f := FindOne drv st selector none
      match f.res with
      | .err e => ⟨f.st, f.trace, .err (.oldDocNotFound e)⟩
      | .panic p => ⟨f.st, f.trace, .panic p⟩
      | .ok oldDoc =>
        match mapIndex oldDoc "create_time" with
        | some createTime =>
          match newDoc with
          | none => ⟨f.st, f.trace, .panic .assignNilMap⟩
          | some fs =>
            let u := drv.update f.st selector (.doc (some (setMapIndex fs "create_time" createTime)))
            ⟨u.1, f.trace ++ [.update selector (.doc (some (setMapIndex fs "create_time" createTime)))],
              ofError u.2⟩
        | none =>
          let u := drv.update f.st selector (.doc newDoc)
          ⟨u.1, f.trace ++ [.update selector (.doc newDoc)], ofError u.2⟩

/-- `MongoDB.ReplaceId`: `db.Replace(ctx, bson.M{"_id": id}, update)`. -/
def ReplaceId {σ : Type} (db : Store) (drv : Driver σ) (st : σ) (id : Val) (update : Any) :
    Run σ Unit :=
  Replace db drv st (.mapv (some [("_id", id)])) update

/-- `MongoDB.ReplaceAll`. -/
def ReplaceAll {σ : Type} (db : Store) (drv : Driver σ) (st : σ) (selector update : Any) :
    Run σ (Option ChangeInfo) :=
  DoWithContext st fun st =>
    match (handleTimeAuto db (db.clock 0) update true).2 with
    | .err e => ⟨st, [], .err e⟩
    | .panic p => ⟨st, [], .panic p⟩
    | .ok newDoc =>
      let f := FindOne drv st selector none
      match f.res with
      | .err e => ⟨f.st, f.trace, .err (.oldDocNotFound e)⟩
      | .panic p => ⟨f.st, f.trace, .panic p⟩
      | .ok oldDoc =>
        match mapIndex oldDoc "create_time" with
        | some createTime =>
          match newDoc with
          | none => ⟨f.st, f.trace, .panic .assignNilMap⟩
          | some fs =>
            let u := drv.updateAll f.st selector (.doc (some (setMapIndex fs "create_time" createTime)))
            ⟨u.1, f.trace ++ [.updateAll selector (.doc (some (setMapIndex fs "create_time" createTime)))],
              match u.2.2 with
              | none => .ok u.2.1
              | some e => .err e⟩
        | none =>
          let u := drv.updateAll f.st selector (.doc newDoc)
          ⟨u.1, f.trace ++ [.updateAll selector (.doc newDoc)],
            match u.2.2 with
            | none => .ok u.2.1
            | some e => .err e⟩

/-- Modelled from the spec: `mapper.BsonM2Map` (package `utils/mapper` is not in the
sources) turns the `bson.M` partial document into the "mapping from field name to
value" it already is: same keys, same values. -/
def BsonM2Map (doc : GMap) : GMap :=
  doc

/-- Go `len(m)` of a possibly nil map. -/
def GMap.len : GMap → Nat
  | none => 0
  | some m => (mapKeys m).length

/-- The `setting` chosen by `Modify` and `ModifyAll` from the variadic `deletion`. -/
def settingOf : List Bool → String
  | [] => "$set"
  | d :: _ => if !d then "$set" else "$unset"

/-- `MongoDB.Modify`. The value of a normal return is the document read back into `ret`. -/
def Modify {σ : Type} (db : Store) (drv : Driver σ) (st : σ) (selector doc : GMap)
    (deletion : List Bool) : Run σ Fields :=
  if GMap.len doc = 0 then ⟨st, [], .err .docNil⟩
  else
    let w : Run σ Unit := DoWithContext st fun st =>
      match (handleTimeAuto db (db.clock 0) (.mapv (BsonM2Map doc)) false).2 with
      | .err e => ⟨st, [], .err e⟩
      | .panic p => ⟨st, [], .panic p⟩
      | .ok v =>
        let u := drv.update st (.mapv selector) (.op (settingOf deletion) v)
        ⟨u.1, [.update (.mapv selector) (.op (settingOf deletion) v)], ofError u.2⟩
    match w.res with
    | .err e => ⟨w.st, w.trace, .err e⟩
    | .panic p => ⟨w.st, w.trace, .panic p⟩
    | .ok _ =>
      let f := FindOne drv w.st (.mapv selector) none
      ⟨f.st, w.trace ++ f.trace, f.res⟩

/-- `MongoDB.ModifyAll`: the `bson.M` partial document goes to `c.UpdateAll` under
`setting` as it is. The value of a normal return is the `changeInfo`. -/
def ModifyAll {σ : Type} (drv : Driver σ) (st : σ) (selector doc : GMap)
    (deletion : List Bool) : Run σ (Option ChangeInfo) :=
  DoWithContext st fun st =>
    let u := drv.updateAll st (.mapv selector) (.op (settingOf deletion) doc)
    ⟨u.1, [.updateAll (.mapv selector) (.op (settingOf deletion) doc)],
      match u.2.2 with
      | none => .ok u.2.1
      | some e => .err e⟩

/-- The value of a hexadecimal digit, as in the table of Go `encoding/hex`. -/
def hexVal (c : Char) : Option Nat :=
  if '0' ≤ c ∧ c ≤ '9' then some (c.toNat - '0'.toNat)
  else if 'a' ≤ c ∧ c ≤ 'f' then some (c.toNat - 'a'.toNat + 10)
  else if 'A' ≤ c ∧ c ≤ 'F' then some (c.toNat - 'A'.toNat + 10)
  else none

/-- Go `hex.DecodeString`: the decoded bytes, or `none` for its error (a character
that is not a hexadecimal digit, or an odd length). -/
def decodeHex : List Char → Option (List Nat)
  | [] => some []
  | [_] => none
  | p :: q :: rest =>
    match hexVal p, hexVal q with
    | some a, some b =>
      match decodeHex rest with
      | some d => some ((a * 16 + b) :: d)
      | none => none
    | _, _ => none

/-- `bson.ObjectIdHex` of mgo: it panics unless the text decodes to twelve bytes. -/
def ObjectIdHex (s : String) : Res ObjectId :=
  match decodeHex s.data with
  | none => .panic (.invalidObjectIdHex s)
  | some d => if d.length ≠ 12 then .panic (.invalidObjectIdHex s) else .ok d

/-- A well-formed hexadecimal object id: 24 characters, each a hexadecimal digit. -/
def WellFormedHexId (s : String) : Prop :=
  s.data.length = 24 ∧ ∀ c ∈ s.data, (hexVal c).isSome = true

/-- `MongoDB.FindObjectId`. The value of a normal return is the document read into `ret`. -/
def FindObjectId {σ : Type} (drv : Driver σ) (st : σ) (id : String)
    (picker : Option (List String)) : Run σ Fields :=
  DoWithContext st fun st =>
    match ObjectIdHex id with
    | .err e => ⟨st, [], .err e⟩
    | .panic p => ⟨st, [], .panic p⟩
    | .ok _id =>
      let r := drv.findId st _id (selectOf picker)
      match r.2 with
      | .ok d => ⟨r.1, [.findId _id (selectOf picker)], .ok d⟩
      | .error e => ⟨r.1, [.findId _id (selectOf picker)], .err e⟩

/-! ## Concrete stores and drivers used to evaluate the operations -/

/-- A store with both timestamp flags set, a field-by-field `Struct2Map`, and a clock
that reads `"t0"`. -/
def autoStore : Store :=
  ⟨⟨true, true⟩, fun fs => .ok (some fs), fun _ => .str "t0"⟩

/-- A store with both timestamp flags cleared. -/
def plainStore : Store :=
  ⟨⟨false, false⟩, fun fs => .ok (some fs), fun _ => .str "t0"⟩

/-- A driver over a single stored document `old`: every write succeeds, every read
returns `old`. -/
def oneDocDriver (old : Fields) : Driver Unit :=
  ⟨fun _ _ => ((), none), fun _ _ _ => ((), none), fun _ _ _ => ((), none, none),
   fun _ _ _ => ((), .ok old), fun _ _ _ => ((), .ok old)⟩

/-- A driver over an empty collection: every write succeeds, every read answers
`mgo.ErrNotFound`. -/
def emptyDriver : Driver Unit :=
  ⟨fun _ _ => ((), none), fun _ _ _ => ((), none), fun _ _ _ => ((), none, none),
   fun _ _ _ => ((), .error .notFound), fun _ _ _ => ((), .error .notFound)⟩

/-! ## Map lemmas -/

theorem mapIndex_setMapIndex_same (m : Fields) (k : String) (v : Val) :
    mapIndex (setMapIndex m k v) k = some v := by
  induction m with
  | nil => simp [setMapIndex, mapIndex]
  | cons e rest ih =>
    obtain ⟨k', v'⟩ := e
    by_cases h : k' = k
    · simp [setMapIndex, mapIndex, h]
    · simp [setMapIndex, mapIndex, h, ih]

theorem mapIndex_setMapIndex_ne (m : Fields) (k k' : String) (v : Val) (hne : k' ≠ k) :
    mapIndex (setMapIndex m k v) k' = mapIndex m k' := by
  induction m with
  | nil =>
    have h : ¬ k = k' := fun h => hne h.symm
    simp [setMapIndex, mapIndex, h]
  | cons e rest ih =>
    obtain ⟨k1, v1⟩ := e
    by_cases h : k1 = k
    · subst h
      have h2 : ¬ k1 = k' := fun h => hne h.symm
      simp [setMapIndex, mapIndex, h2]
    · by_cases h3 : k1 = k'
      · subst h3
        simp [setMapIndex, mapIndex, h]
      · simp [setMapIndex, mapIndex, h, h3, ih]

theorem mapDelete_cons (k1 : String) (v1 : Val) (rest : Fields) (k : String) :
    mapDelete ((k1, v1) :: rest) k
      = if k1 = k then mapDelete rest k else (k1, v1) :: mapDelete rest k := by
  by_cases h : k1 = k
  · simp [mapDelete, List.filter_cons, h]
  · simp [mapDelete, List.filter_cons, h]

theorem mapIndex_mapDelete_same (m : Fields) (k : String) :
    mapIndex (mapDelete m k) k = none := by
  induction m with
  | nil => simp [mapDelete, mapIndex]
  | cons e rest ih =>
    obtain ⟨k1, v1⟩ := e
    rw [mapDelete_cons]
    by_cases h : k1 = k
    · rw [if_pos h]
      exact ih
    · rw [if_neg h]
      simp [mapIndex, h, ih]

theorem mapIndex_mapDelete_ne (m : Fields) (k k' : String) (hne : k' ≠ k) :
    mapIndex (mapDelete m k) k' = mapIndex m k' := by
  induction m with
  | nil => simp [mapDelete, mapIndex]
  | cons e rest ih =>
    obtain ⟨k1, v1⟩ := e
    rw [mapDelete_cons]
    by_cases h : k1 = k
    · rw [if_pos h]
      subst h
      have h2 : ¬ k1 = k' := fun h => hne h.symm
      simp [mapIndex, h2, ih]
    · rw [if_neg h]
      by_cases h3 : k1 = k'
      · simp [mapIndex, h3]
      · simp [mapIndex, h3, ih]

theorem mem_mapKeys_iff (m : Fields) (k : String) :
    k ∈ mapKeys m ↔ (mapIndex m k).isSome = true := by
  induction m with
  | nil => simp [mapKeys, mapIndex]
  | cons e rest ih =>
    obtain ⟨k1, v1⟩ := e
    by_cases h : k1 = k
    · simp [mapKeys, mapIndex, h]
    · have h2 : ¬ k = k1 := fun h3 => h h3.symm
      have ih2 : k ∈ List.map Prod.fst rest ↔ (mapIndex rest k).isSome = true := ih
      simp only [mapKeys, List.map_cons, List.mem_cons, mapIndex, h, h2, false_or, if_false]
      exact ih2

theorem mapIndex_foldl_copy (fs : Fields) (ks : List String) (acc : Fields) (k : String) :
    mapIndex (ks.foldl (fun (ret : Fields) key =>
        match mapIndex fs key with
        | some x => setMapIndex ret key x
        | none => ret) acc) k
      = if k ∈ ks ∧ (mapIndex fs k).isSome = true then mapIndex fs k else mapIndex acc k := by
  induction ks generalizing acc with
  | nil => simp
  | cons key rest ih =>
    simp only [List.foldl_cons, ih]
    by_cases hk : k ∈ rest ∧ (mapIndex fs k).isSome = true
    · have : k ∈ key :: rest ∧ (mapIndex fs k).isSome = true :=
        ⟨List.mem_cons_of_mem _ hk.1, hk.2⟩
      simp [hk, this]
    · rw [if_neg hk]
      by_cases hkey : k = key
      · subst hkey
        cases hfs : mapIndex fs k with
        | none => simp [hfs]
        | some x => simp [hfs, mapIndex_setMapIndex_same]
      · have hnot : ¬ (k ∈ key :: rest ∧ (mapIndex fs k).isSome = true) := by
          intro h
          rcases List.mem_cons.1 h.1 with h1 | h1
          · exact hkey h1
          · exact hk ⟨h1, h.2⟩
        rw [if_neg hnot]
        cases hfs : mapIndex fs key with
        | none => rfl
        | some x => exact mapIndex_setMapIndex_ne acc key k x hkey

/-- The copy made by `handleTimeAuto` has the keys and values of the map copied. -/
theorem mapIndex_copyMap (fs : Fields) (k : String) :
    mapIndex (copyMap fs) k = mapIndex fs k := by
  unfold copyMap
  rw [mapIndex_foldl_copy]
  by_cases h : k ∈ mapKeys fs ∧ (mapIndex fs k).isSome = true
  · rw [if_pos h]
  · rw [if_neg h]
    have h2 : ¬ (mapIndex fs k).isSome = true := fun h3 =>
      h ⟨(mem_mapKeys_iff fs k).2 h3, h3⟩
    cases hfs : mapIndex fs k with
    | none => simp [mapIndex]
    | some x => simp [hfs] at h2

/-! ## The timestamp policy -/

theorem mapIndex_setIfAbsent (m : Fields) (key : String) (now : Val) (c : Bool) (k : String) :
    mapIndex (if c && !(mapIndex m key).isSome then setMapIndex m key now else m) k
      = match mapIndex m k with
        | some v => some v
        | none => if k = key ∧ c = true then some now else none := by
  by_cases hk : k = key
  · subst hk
    cases c <;> cases h : mapIndex m k <;> simp [h, mapIndex_setMapIndex_same]
  · cases c <;> cases h2 : mapIndex m key <;> cases h : mapIndex m k <;>
      simp [h, hk, mapIndex_setMapIndex_ne m key k now hk]

/-- What `handleTimeAuto` leaves under each key of a non-empty map: a supplied value
stays, `update_time` and `create_time` are filled in when absent and enabled. -/
theorem mapIndex_injectTimes (cfg : Config) (now : Val) (isInsert : Bool) (fs : Fields)
    (k : String) :
    mapIndex (injectTimes cfg now isInsert fs) k
      = match mapIndex fs k with
        | some v => some v
        | none =>
          if (k = "update_time" ∧ cfg.UpdateTimeAuto = true) ∨
              (k = "create_time" ∧ cfg.InsertTimeAuto = true ∧ isInsert = true)
          then some now else none := by
  unfold injectTimes
  have hb : ∀ a x b : Bool, (a && !x && b) = ((a && b) && !x) := by
    intro a x b
    cases a <;> cases x <;> cases b <;> rfl
  simp only [hb]
  rw [mapIndex_setIfAbsent, mapIndex_setIfAbsent]
  have hne : ¬ ("create_time" = "update_time") := by decide
  cases h : mapIndex fs k with
  | some v => simp
  | none =>
    by_cases h1 : k = "update_time"
    · subst h1
      cases hu : cfg.UpdateTimeAuto <;> simp
    · by_cases h2 : k = "create_time"
      · subst h2
        cases hi : cfg.InsertTimeAuto <;> cases isInsert <;> simp
      · simp [h1, h2]

theorem injectTimes_off (cfg : Config) (now : Val) (isInsert : Bool) (fs : Fields)
    (hu : cfg.UpdateTimeAuto = false) (hi : cfg.InsertTimeAuto = false) :
    injectTimes cfg now isInsert fs = fs := by
  simp [injectTimes, hu, hi]

theorem timeAutoMap_nonempty (cfg : Config) (now : Val) (isInsert : Bool) (fs : Fields)
    (hne : fs ≠ []) :
    timeAutoMap cfg now isInsert (some fs)
      = (some (injectTimes cfg now isInsert fs),
         some (copyMap (injectTimes cfg now isInsert fs))) := by
  cases fs with
  | nil => exact absurd rfl hne
  | cons e rest => simp [timeAutoMap, mapKeys]

theorem timeAutoMap_empty (cfg : Config) (now : Val) (isInsert : Bool) (m : GMap)
    (h : GMap.len m = 0) :
    timeAutoMap cfg now isInsert m = (m, none) := by
  cases m with
  | none => rfl
  | some fs =>
    have h2 : (mapKeys fs).length = 0 := h
    simp [timeAutoMap, h2]

/-! ## `handleTimeAuto` -/

theorem handleTimeAuto_mapv (db : Store) (now : Val) (isInsert : Bool) (m : GMap) :
    handleTimeAuto db now (.mapv m) isInsert
      = (.mapv (timeAutoMap db.config now isInsert m).1,
         .ok (timeAutoMap db.config now isInsert m).2) := by
  simp [handleTimeAuto, elemLoop, storeMap]

theorem handleTimeAuto_nonempty (db : Store) (now : Val) (isInsert : Bool) (m : Fields)
    (hne : m ≠ []) :
    handleTimeAuto db now (.mapv (some m)) isInsert
      = (.mapv (some (injectTimes db.config now isInsert m)),
         .ok (some (copyMap (injectTimes db.config now isInsert m)))) := by
  rw [handleTimeAuto_mapv, timeAutoMap_nonempty _ _ _ _ hne]

theorem handleTimeAuto_of_map (db : Store) (now : Val) (isInsert : Bool) (doc : Any)
    (m : GMap) (h : elemLoop doc = .val (.mapv m)) :
    (handleTimeAuto db now doc isInsert).2 = .ok (timeAutoMap db.config now isInsert m).2 := by
  cases doc <;> simp_all [handleTimeAuto, elemLoop]

theorem handleTimeAuto_of_struct (db : Store) (now : Val) (isInsert : Bool) (doc : Any)
    (fs : Fields) (m : GMap) (h : elemLoop doc = .val (.structv fs))
    (hs : db.Struct2Map fs = .ok m) :
    (handleTimeAuto db now doc isInsert).2 = .ok (timeAutoMap db.config now isInsert m).2 := by
  cases doc <;> simp_all [handleTimeAuto, elemLoop]

/-- The keys of the returned copy beyond those supplied are the two timestamps. -/
theorem injectTimes_new_key (cfg : Config) (now : Val) (isInsert : Bool) (m : Fields)
    (k : String) (hk : k ∈ mapKeys (injectTimes cfg now isInsert m)) :
    k ∈ mapKeys m ∨ k = "update_time" ∨ k = "create_time" := by
  rw [mem_mapKeys_iff, mapIndex_injectTimes] at hk
  cases h : mapIndex m k with
  | some v => exact Or.inl ((mem_mapKeys_iff m k).2 (by simp [h]))
  | none =>
    rw [h] at hk
    by_cases hc : (k = "update_time" ∧ cfg.UpdateTimeAuto = true) ∨
        (k = "create_time" ∧ cfg.InsertTimeAuto = true ∧ isInsert = true)
    · rcases hc with hc | hc
      · exact Or.inr (Or.inl hc.1)
      · exact Or.inr (Or.inr hc.1)
    · simp [hc] at hk

theorem injectTimes_keeps (cfg : Config) (now : Val) (isInsert : Bool) (m : Fields)
    (k : String) (hk : k ∈ mapKeys m) :
    mapIndex (injectTimes cfg now isInsert m) k = mapIndex m k := by
  rw [mapIndex_injectTimes]
  cases h : mapIndex m k with
  | some v => rfl
  | none =>
    have h2 := (mem_mapKeys_iff m k).1 hk
    simp [h] at h2

/-! ## Maps of other types -/

theorem valIndex_valSet_same (m : ValFields) (k v : Val) :
    valIndex (valSet m k v) k = some v := by
  induction m with
  | nil => simp [valSet, valIndex]
  | cons e rest ih =>
    obtain ⟨k1, v1⟩ := e
    by_cases h : k1 = k
    · simp [valSet, valIndex, h]
    · simp [valSet, valIndex, h, ih]

theorem valIndex_valSet_ne (m : ValFields) (k k' v : Val) (hne : k' ≠ k) :
    valIndex (valSet m k v) k' = valIndex m k' := by
  induction m with
  | nil =>
    have h : ¬ k = k' := fun h => hne h.symm
    simp [valSet, valIndex, h]
  | cons e rest ih =>
    obtain ⟨k1, v1⟩ := e
    by_cases h : k1 = k
    · subst h
      have h2 : ¬ k1 = k' := fun h => hne h.symm
      simp [valSet, valIndex, h2]
    · by_cases h3 : k1 = k'
      · subst h3
        simp [valSet, valIndex, h]
      · simp [valSet, valIndex, h, h3, ih]

theorem guardedSet_some {μ : Type} (f k p d e : Bool) (m set m' : μ)
    (h : guardedSet f k p d e m set = some m') :
    m' = m ∨ (m' = set ∧ f = true ∧ k = true ∧ p = false ∧ d = true ∧ e = true) := by
  cases f <;> cases k <;> cases p <;> cases d <;> cases e <;>
    simp [guardedSet] at h <;> simp [h]

theorem guardedSet_none {μ : Type} (f k p d e : Bool) (m set : μ)
    (h : guardedSet f k p d e m set = none) :
    f = true ∧ (k = false ∨ e = false) := by
  cases f <;> cases k <;> cases p <;> cases d <;> cases e <;>
    simp [guardedSet] at h <;> simp

/-- One guarded write keeps every entry of the map, adds at most its own key, and
changes the map only when its flag is set and a `string` fits key and element type. -/
theorem guardedSet_frame {μ κ : Type} (idx : μ → κ → Option Val) (m set : μ) (key : κ)
    (now : Val) (hsame : idx set key = some now)
    (hne : ∀ x, x ≠ key → idx set x = idx m x)
    (f k d e : Bool) (m' : μ)
    (h : guardedSet f k (idx m key).isSome d e m set = some m') :
    (∀ x, (idx m x).isSome = true → idx m' x = idx m x) ∧
    (∀ x, (idx m' x).isSome = true → (idx m x).isSome = true ∨ x = key) ∧
    (f = false → m' = m) ∧
    (m' = m ∨ (k = true ∧ e = true)) := by
  rcases guardedSet_some f k _ d e m set m' h with h1 | ⟨h1, hf, hk, hp, _, he⟩
  · subst h1
    exact ⟨fun _ _ => rfl, fun x hx => Or.inl hx, fun _ => rfl, Or.inl rfl⟩
  · subst h1
    refine ⟨?_, ?_, ?_, Or.inr ⟨hk, he⟩⟩
    · intro x hx
      apply hne
      intro hxk
      subst hxk
      rw [hp] at hx
      cases hx
    · intro x hx
      by_cases hxk : x = key
      · exact Or.inr hxk
      · rw [hne x hxk] at hx
        exact Or.inl hx
    · intro hf2
      rw [hf] at hf2
      cases hf2

/-- The two guarded writes of lines 90-95 in sequence, on any kind of map. -/
theorem two_guardedSets {μ κ : Type} (idx : μ → κ → Option Val) (set : μ → κ → Val → μ)
    (hsame : ∀ m key v, idx (set m key v) key = some v)
    (hne : ∀ m key v x, x ≠ key → idx (set m key v) x = idx m x)
    (U I keyOk d2 elemOk : Bool) (k1 k2 : κ) (now : Val) (m m1 : μ)
    (h1 : guardedSet U keyOk (idx m k1).isSome true elemOk m (set m k1 now) = some m1) :
    (guardedSet I keyOk (idx m1 k2).isSome d2 elemOk m1 (set m1 k2 now) = none → m1 = m) ∧
    (∀ m2, guardedSet I keyOk (idx m1 k2).isSome d2 elemOk m1 (set m1 k2 now) = some m2 →
      (∀ x, (idx m x).isSome = true → idx m2 x = idx m x) ∧
      (∀ x, (idx m2 x).isSome = true → (idx m x).isSome = true ∨ x = k1 ∨ x = k2) ∧
      (U = false ∧ I = false → m2 = m)) := by
  obtain ⟨keep1, add1, off1, alt1⟩ := guardedSet_frame idx m (set m k1 now) k1 now
    (hsame m k1 now) (hne m k1 now) U keyOk true elemOk m1 h1
  constructor
  · intro h2
    obtain ⟨_, hbad⟩ := guardedSet_none _ _ _ _ _ _ _ h2
    rcases alt1 with h | ⟨hk, he⟩
    · exact h
    · rcases hbad with hb | hb
      · rw [hk] at hb
        cases hb
      · rw [he] at hb
        cases hb
  · intro m2 h2
    obtain ⟨keep2, add2, off2, _⟩ := guardedSet_frame idx m1 (set m1 k2 now) k2 now
      (hsame m1 k2 now) (hne m1 k2 now) I keyOk d2 elemOk m2 h2
    refine ⟨?_, ?_, ?_⟩
    · intro x hx
      have hx1 : idx m1 x = idx m x := keep1 x hx
      have hx2 : (idx m1 x).isSome = true := by rw [hx1]; exact hx
      rw [keep2 x hx2, hx1]
    · intro x hx
      rcases add2 x hx with h | h
      · rcases add1 x h with h3 | h3
        · exact Or.inl h3
        · exact Or.inr (Or.inl h3)
      · exact Or.inr (Or.inr h)
    · intro hoff
      rw [off2 hoff.2, off1 hoff.1]

/-- What `handleTimeAuto` does to a map with string keys of any key and element type. -/
theorem timeAutoTMap_strKeyed (cfg : Config) (now : Val) (isInsert : Bool) (named : Bool)
    (et : ElemType) (m : GMap) :
    ∃ after res, timeAutoTMap cfg now isInsert (.strKeyed named et m)
        = (.strKeyed named et after, res) ∧
      (∀ k ∈ GMap.keys m, GMap.index after k = GMap.index m k) ∧
      (∀ k ∈ GMap.keys after, k ∈ GMap.keys m ∨ k = "update_time" ∨ k = "create_time") ∧
      (GMap.len m = 0 → after = m ∧ res = .ok none) ∧
      (cfg.UpdateTimeAuto = false ∧ cfg.InsertTimeAuto = false → after = m) ∧
      (∀ p, res = .panic p → after = m) ∧
      (∀ e, res ≠ .err e) ∧
      (∀ r, res = .ok (some r) → ∀ k, mapIndex r k = GMap.index after k) := by
  have htriv : ∀ res : Res GMap, (∀ e, res ≠ .err e) → (∀ r, res ≠ .ok (some r)) →
      timeAutoTMap cfg now isInsert (.strKeyed named et m) = (.strKeyed named et m, res) →
      (GMap.len m = 0 → res = .ok none) →
      ∃ after res, timeAutoTMap cfg now isInsert (.strKeyed named et m)
        = (.strKeyed named et after, res) ∧
      (∀ k ∈ GMap.keys m, GMap.index after k = GMap.index m k) ∧
      (∀ k ∈ GMap.keys after, k ∈ GMap.keys m ∨ k = "update_time" ∨ k = "create_time") ∧
      (GMap.len m = 0 → after = m ∧ res = .ok none) ∧
      (cfg.UpdateTimeAuto = false ∧ cfg.InsertTimeAuto = false → after = m) ∧
      (∀ p, res = .panic p → after = m) ∧
      (∀ e, res ≠ .err e) ∧
      (∀ r, res = .ok (some r) → ∀ k, mapIndex r k = GMap.index after k) := by
    intro res hnerr hnok heq hzero
    exact ⟨m, res, heq, fun _ _ => rfl, fun _ hk => Or.inl hk, fun h => ⟨rfl, hzero h⟩,
      fun _ => rfl, fun _ _ => rfl, hnerr, fun r hr => absurd hr (hnok r)⟩
  cases m with
  | none =>
    exact htriv (.ok none) (fun e h => by cases h) (fun r h => by cases h) rfl (fun _ => rfl)
  | some fs =>
    by_cases hlen : (mapKeys fs).length = 0
    · exact htriv (.ok none) (fun e h => by cases h) (fun r h => by cases h)
        (by simp [timeAutoTMap, hlen]) (fun _ => rfl)
    · have hlen2 : ¬ GMap.len (some fs) = 0 := hlen
      cases h1 : guardedSet cfg.UpdateTimeAuto (!named) (mapIndex fs "update_time").isSome true
          et.holdsString fs (setMapIndex fs "update_time" now) with
      | none =>
        exact htriv (.panic .notAssignable) (fun e h => by cases h) (fun r h => by cases h)
          (by simp [timeAutoTMap, hlen, h1]) (fun h => absurd h hlen2)
      | some fs1 =>
        obtain ⟨hpanic, hok⟩ := two_guardedSets mapIndex setMapIndex
          mapIndex_setMapIndex_same (fun m key v x hx => mapIndex_setMapIndex_ne m key x v hx)
          cfg.UpdateTimeAuto cfg.InsertTimeAuto (!named) isInsert et.holdsString
          "update_time" "create_time" now fs fs1 h1
        cases h2 : guardedSet cfg.InsertTimeAuto (!named) (mapIndex fs1 "create_time").isSome
            isInsert et.holdsString fs1 (setMapIndex fs1 "create_time" now) with
        | none =>
          have hfs1 : fs1 = fs := hpanic h2
          subst hfs1
          exact htriv (.panic .notAssignable) (fun e h => by cases h) (fun r h => by cases h)
            (by simp [timeAutoTMap, hlen, h1, h2]) (fun h => absurd h hlen2)
        | some fs2 =>
          obtain ⟨keep, add, off⟩ := hok fs2 h2
          refine ⟨some fs2, .ok (some (copyMap fs2)), by simp [timeAutoTMap, hlen, h1, h2],
            ?_, ?_, fun h => absurd h hlen2, fun h => by rw [off h], ?_, ?_, ?_⟩
          · intro k hk
            exact keep k ((mem_mapKeys_iff fs k).1 hk)
          · intro k hk
            rcases add k ((mem_mapKeys_iff fs2 k).1 hk) with h | h
            · exact Or.inl ((mem_mapKeys_iff fs k).2 h)
            · exact Or.inr h
          · intro p hp
            cases hp
          · intro e he
            cases he
          · intro r hr k
            cases hr
            exact mapIndex_copyMap fs2 k

/-- What `handleTimeAuto` does to a map whose keys are not of string kind. -/
theorem timeAutoTMap_valKeyed (cfg : Config) (now : Val) (isInsert : Bool)
    (keyType : Option String) (et : ElemType) (m : VMap) :
    ∃ after res, timeAutoTMap cfg now isInsert (.valKeyed keyType et m)
        = (.valKeyed keyType et after, res) ∧
      (∀ k, (VMap.index m k).isSome = true → VMap.index after k = VMap.index m k) ∧
      (∀ k, (VMap.index after k).isSome = true →
        (VMap.index m k).isSome = true ∨ k = .str "update_time" ∨ k = .str "create_time") ∧
      (VMap.len m = 0 → after = m ∧ res = .ok none) ∧
      (cfg.UpdateTimeAuto = false ∧ cfg.InsertTimeAuto = false → after = m) ∧
      (∀ p, res = .panic p → after = m) ∧
      (∀ e, res ≠ .err e) := by
  have htriv : ∀ res : Res GMap, (∀ e, res ≠ .err e) →
      timeAutoTMap cfg now isInsert (.valKeyed keyType et m) = (.valKeyed keyType et m, res) →
      (VMap.len m = 0 → res = .ok none) →
      ∃ after res, timeAutoTMap cfg now isInsert (.valKeyed keyType et m)
        = (.valKeyed keyType et after, res) ∧
      (∀ k, (VMap.index m k).isSome = true → VMap.index after k = VMap.index m k) ∧
      (∀ k, (VMap.index after k).isSome = true →
        (VMap.index m k).isSome = true ∨ k = .str "update_time" ∨ k = .str "create_time") ∧
      (VMap.len m = 0 → after = m ∧ res = .ok none) ∧
      (cfg.UpdateTimeAuto = false ∧ cfg.InsertTimeAuto = false → after = m) ∧
      (∀ p, res = .panic p → after = m) ∧
      (∀ e, res ≠ .err e) := by
    intro res hnerr heq hzero
    exact ⟨m, res, heq, fun _ _ => rfl, fun _ hk => Or.inl hk, fun h => ⟨rfl, hzero h⟩,
      fun _ => rfl, fun _ _ => rfl, hnerr⟩
  cases m with
  | none =>
    exact htriv (.ok none) (fun e h => by cases h) rfl (fun _ => rfl)
  | some es =>
    by_cases hlen : (es.map Prod.fst).length = 0
    · exact htriv (.ok none) (fun e h => by cases h)
        (by simp only [timeAutoTMap, hlen, if_true]) (fun _ => rfl)
    · have hlen2 : ¬ VMap.len (some es) = 0 := by
        simpa [VMap.len] using hlen
      cases h1 : guardedSet cfg.UpdateTimeAuto keyType.isNone
          (valIndex es (.str "update_time")).isSome true
          et.holdsString es (valSet es (.str "update_time") now) with
      | none =>
        exact htriv (.panic .notAssignable) (fun e h => by cases h)
          (by simp only [timeAutoTMap, hlen, if_false, h1]) (fun h => absurd h hlen2)
      | some es1 =>
        obtain ⟨hpanic, hok⟩ := two_guardedSets valIndex valSet
          valIndex_valSet_same (fun m key v x hx => valIndex_valSet_ne m key x v hx)
          cfg.UpdateTimeAuto cfg.InsertTimeAuto keyType.isNone isInsert et.holdsString
          (.str "update_time") (.str "create_time") now es es1 h1
        cases h2 : guardedSet cfg.InsertTimeAuto keyType.isNone
            (valIndex es1 (.str "create_time")).isSome isInsert
            et.holdsString es1 (valSet es1 (.str "create_time") now) with
        | none =>
          have hes1 : es1 = es := hpanic h2
          subst hes1
          exact htriv (.panic .notAssignable) (fun e h => by cases h)
            (by simp only [timeAutoTMap, hlen, if_false, h1, h2]) (fun h => absurd h hlen2)
        | some es2 =>
          obtain ⟨keep, add, off⟩ := hok es2 h2
          refine ⟨some es2, .ok (some (copyValMap keyType es2)),
            by simp only [timeAutoTMap, hlen, if_false, h1, h2],
            keep, add, fun h => absurd h hlen2, fun h => by rw [off h], ?_, ?_⟩
          · intro p hp
            cases hp
          · intro e he
            cases he

theorem handleTimeAuto_of_map_pair (db : Store) (now : Val) (isInsert : Bool) (doc : Any)
    (m : GMap) (h : elemLoop doc = .val (.mapv m)) :
    handleTimeAuto db now doc isInsert
      = (storeMap doc (timeAutoMap db.config now isInsert m).1,
         .ok (timeAutoMap db.config now isInsert m).2) := by
  cases doc <;> simp_all [handleTimeAuto, elemLoop]

theorem handleTimeAuto_of_tmap (db : Store) (now : Val) (isInsert : Bool) (doc : Any)
    (t : TMap) (h : elemLoop doc = .val (.tmap t)) :
    handleTimeAuto db now doc isInsert
      = (storeTMap doc (timeAutoTMap db.config now isInsert t).1,
         (timeAutoTMap db.config now isInsert t).2) := by
  cases doc <;> simp_all [handleTimeAuto, elemLoop]

/-- On a map with keys of type `string` and an element type that holds a `string`,
`handleTimeAuto` does what it does on a `map[string]interface{}`. -/
theorem timeAutoTMap_string_keys (cfg : Config) (now : Val) (isInsert : Bool)
    (et : ElemType) (fs : Fields) (het : et.holdsString = true) (hne : fs ≠ []) :
    timeAutoTMap cfg now isInsert (.strKeyed false et (some fs))
      = (.strKeyed false et (some (injectTimes cfg now isInsert fs)),
         .ok (some (copyMap (injectTimes cfg now isInsert fs)))) := by
  have hlen : ¬ (mapKeys fs).length = 0 := by
    cases fs with
    | nil => exact absurd rfl hne
    | cons e rest => simp [mapKeys]
  have hg : ∀ (f p d : Bool) (a b : Fields),
      guardedSet f (!false) p d true a b = some (if f && !p && d then b else a) := by
    intro f p d a b
    cases f <;> cases p <;> cases d <;> simp [guardedSet]
  simp only [timeAutoTMap, hlen, if_false, het, hg, injectTimes, Bool.and_true]

/-- With both flags cleared `handleTimeAuto` copies a map with keys of string kind,
whatever its key and element types. -/
theorem timeAutoTMap_flags_off (cfg : Config) (now : Val) (isInsert : Bool) (named : Bool)
    (et : ElemType) (fs : Fields) (hu : cfg.UpdateTimeAuto = false)
    (hi : cfg.InsertTimeAuto = false) (hne : fs ≠ []) :
    timeAutoTMap cfg now isInsert (.strKeyed named et (some fs))
      = (.strKeyed named et (some (injectTimes cfg now isInsert fs)),
         .ok (some (copyMap (injectTimes cfg now isInsert fs)))) := by
  have hlen : ¬ (mapKeys fs).length = 0 := by
    cases fs with
    | nil => exact absurd rfl hne
    | cons e rest => simp [mapKeys]
  rw [injectTimes_off cfg now isInsert fs hu hi]
  simp [timeAutoTMap, hlen, hu, hi, guardedSet]

/-- C3, as stated, fails on maps of other types, which `handleTimeAuto` also takes as
`reflect.Map`: on `map[string]int{"n": 1}` with `UpdateTimeAuto` set it panics in
`v.SetMapIndex` and returns nothing; and on `map[int]string{1: "a"}` with both flags
cleared the result has the key `"<int Value>"`, the text of `key.String()`, which is
neither a key of the input nor a timestamp key. -/
theorem handleTimeAuto_typed_map_fails :
    (handleTimeAuto autoStore (.str "t0")
        (.tmap (.strKeyed false .other (some [("n", .int 1)]))) true).2
      = .panic .notAssignable ∧
    (handleTimeAuto plainStore (.str "t0")
        (.tmap (.valKeyed (some "int") .string (some [(.int 1, .str "a")]))) true).2
      = .ok (some [("<int Value>", .str "a")]) := by
  decide

/-- C3, amended. For every document that is a non-empty map to which `reflect` can
write the timestamps, that is with keys of type `string` and an element type that holds
a `string` (`map[string]interface{}`, so `bson.M`, or `map[string]string`), and for
every non-empty map with keys of string kind when both flags are cleared, passed
directly or behind pointers, for every such setting of the two flags and every
`isInsert`, `handleTimeAuto` returns a mapping that gives every key of the input the
input's value (a supplied `update_time` or `create_time` is kept), and whose keys
beyond the input's are among `update_time` and `create_time`. -/
theorem handleTimeAuto_never_overwrites (db : Store) (now : Val) (isInsert : Bool)
    (doc : Any) (m : Fields)
    (hdoc : elemLoop doc = .val (.mapv (some m)) ∨
      ∃ named et, elemLoop doc = .val (.tmap (.strKeyed named et (some m))) ∧
        ((named = false ∧ et.holdsString = true) ∨
          (db.config.UpdateTimeAuto = false ∧ db.config.InsertTimeAuto = false)))
    (hne : m ≠ []) :
    ∃ ret, (handleTimeAuto db now doc isInsert).2 = .ok (some ret) ∧
      (∀ k ∈ mapKeys m, mapIndex ret k = mapIndex m k) ∧
      (∀ k ∈ mapKeys ret, k ∈ mapKeys m ∨ k = "update_time" ∨ k = "create_time") := by
  refine ⟨copyMap (injectTimes db.config now isInsert m), ?_, ?_, ?_⟩
  · rcases hdoc with hdoc | ⟨named, et, hdoc, ⟨hnamed, het⟩ | ⟨hu, hi⟩⟩
    · rw [handleTimeAuto_of_map db now isInsert doc (some m) hdoc,
        timeAutoMap_nonempty _ _ _ _ hne]
    · subst hnamed
      rw [handleTimeAuto_of_tmap db now isInsert doc _ hdoc,
        timeAutoTMap_string_keys _ _ _ et m het hne]
    · rw [handleTimeAuto_of_tmap db now isInsert doc _ hdoc,
        timeAutoTMap_flags_off _ _ _ named et m hu hi hne]
  · intro k hk
    rw [mapIndex_copyMap]
    exact injectTimes_keeps db.config now isInsert m k hk
  · intro k hk
    apply injectTimes_new_key db.config now isInsert m k
    rw [mem_mapKeys_iff] at hk ⊢
    rw [mapIndex_copyMap] at hk
    exact hk

/-- C3, amended, at a pointer to a `map[string]string` that supplies its own
`update_time`, with both flags set. -/
theorem handleTimeAuto_never_overwrites_witness :
    ∃ ret, (handleTimeAuto autoStore (.str "t0")
        (.ptr (.tmap (.strKeyed false .string
          (some [("update_time", Val.str "mine"), ("name", Val.str "a")])))) true).2
          = .ok (some ret) ∧
      (∀ k ∈ mapKeys [("update_time", Val.str "mine"), ("name", Val.str "a")],
        mapIndex ret k = mapIndex [("update_time", Val.str "mine"), ("name", Val.str "a")] k) ∧
      (∀ k ∈ mapKeys ret, k ∈ mapKeys [("update_time", Val.str "mine"), ("name", Val.str "a")] ∨
        k = "update_time" ∨ k = "create_time") :=
  handleTimeAuto_never_overwrites autoStore (.str "t0") true
    (.ptr (.tmap (.strKeyed false .string
      (some [("update_time", Val.str "mine"), ("name", Val.str "a")]))))
    [("update_time", Val.str "mine"), ("name", Val.str "a")]
    (Or.inr ⟨false, .string, rfl, Or.inl ⟨rfl, rfl⟩⟩) (by decide)

/-- C7, as stated, fails: with `UpdateTimeAuto` and `InsertTimeAuto` set, the call on
the caller's map `{"name": "a"}` leaves that map with `update_time` and `create_time`
added. -/
theorem handleTimeAuto_writes_caller_map :
    (handleTimeAuto autoStore (.str "t0") (.mapv (some [("name", .str "a")])) true).1
      = .mapv (some [("name", .str "a"), ("update_time", .str "t0"), ("create_time", .str "t0")]) ∧
    (handleTimeAuto autoStore (.str "t0") (.mapv (some [("name", .str "a")])) true).1
      ≠ .mapv (some [("name", .str "a")]) := by
  decide

/-- C7, amended. For every mapping-shaped document, passed directly or behind pointers,
and every setting of the flags: the caller's value after `handleTimeAuto` is the same
value with the map at the end of the pointers in state `after`, where `after` gives
every key the map had the same value and its further keys are among `update_time` and
`create_time`; an empty or nil map is left as it was and yields the nil result; with
both flags cleared the map is left as it was; and when the call panics (a map type
that cannot take the `string` key or the time text) the map is left as it was. A
mapping returned for a map with string keys has exactly the keys and values of the
caller's map after the call, and it is a value of its own. The three parts are: a
`map[string]interface{}`, another map type with string keys, a map type with other keys. -/
theorem handleTimeAuto_caller_mapping (db : Store) (now : Val) (isInsert : Bool) (doc : Any) :
    (∀ m, elemLoop doc = .val (.mapv m) →
      ∃ after ret, handleTimeAuto db now doc isInsert = (storeMap doc after, .ok ret) ∧
        (∀ k ∈ GMap.keys m, GMap.index after k = GMap.index m k) ∧
        (∀ k ∈ GMap.keys after, k ∈ GMap.keys m ∨ k = "update_time" ∨ k = "create_time") ∧
        (GMap.len m = 0 → after = m ∧ ret = none) ∧
        (db.config.UpdateTimeAuto = false ∧ db.config.InsertTimeAuto = false → after = m) ∧
        (∀ r, ret = some r → ∀ k, mapIndex r k = GMap.index after k)) ∧
    (∀ named et m, elemLoop doc = .val (.tmap (.strKeyed named et m)) →
      ∃ after res, handleTimeAuto db now doc isInsert
          = (storeTMap doc (.strKeyed named et after), res) ∧
        (∀ k ∈ GMap.keys m, GMap.index after k = GMap.index m k) ∧
        (∀ k ∈ GMap.keys after, k ∈ GMap.keys m ∨ k = "update_time" ∨ k = "create_time") ∧
        (GMap.len m = 0 → after = m ∧ res = .ok none) ∧
        (db.config.UpdateTimeAuto = false ∧ db.config.InsertTimeAuto = false → after = m) ∧
        (∀ p, res = .panic p → after = m) ∧
        (∀ e, res ≠ .err e) ∧
        (∀ r, res = .ok (some r) → ∀ k, mapIndex r k = GMap.index after k)) ∧
    (∀ keyType et m, elemLoop doc = .val (.tmap (.valKeyed keyType et m)) →
      ∃ after res, handleTimeAuto db now doc isInsert
          = (storeTMap doc (.valKeyed keyType et after), res) ∧
        (∀ k, (VMap.index m k).isSome = true → VMap.index after k = VMap.index m k) ∧
        (∀ k, (VMap.index after k).isSome = true →
          (VMap.index m k).isSome = true ∨ k = .str "update_time" ∨ k = .str "create_time") ∧
        (VMap.len m = 0 → after = m ∧ res = .ok none) ∧
        (db.config.UpdateTimeAuto = false ∧ db.config.InsertTimeAuto = false → after = m) ∧
        (∀ p, res = .panic p → after = m) ∧
        (∀ e, res ≠ .err e)) := by
  refine ⟨?_, ?_, ?_⟩
  · intro m hm
    rw [handleTimeAuto_of_map_pair db now isInsert doc m hm]
    by_cases hlen : GMap.len m = 0
    · rw [timeAutoMap_empty _ _ _ _ hlen]
      refine ⟨m, none, rfl, fun _ _ => rfl, fun _ hk => Or.inl hk, fun _ => ⟨rfl, rfl⟩,
        fun _ => rfl, ?_⟩
      intro r hr
      cases hr
    · cases m with
      | none => exact absurd rfl hlen
      | some fs =>
        have hne : fs ≠ [] := by
          intro h
          subst h
          exact hlen rfl
        rw [timeAutoMap_nonempty _ _ _ _ hne]
        refine ⟨some (injectTimes db.config now isInsert fs),
          some (copyMap (injectTimes db.config now isInsert fs)), rfl, ?_, ?_,
          fun h => absurd h hlen, ?_, ?_⟩
        · intro k hk
          exact injectTimes_keeps db.config now isInsert fs k hk
        · intro k hk
          exact injectTimes_new_key db.config now isInsert fs k hk
        · intro h
          rw [injectTimes_off db.config now isInsert fs h.1 h.2]
        · intro r hr k
          cases hr
          exact mapIndex_copyMap _ k
  · intro named et m hm
    rw [handleTimeAuto_of_tmap db now isInsert doc _ hm]
    obtain ⟨after, res, heq, hrest⟩ := timeAutoTMap_strKeyed db.config now isInsert named et m
    exact ⟨after, res, by rw [heq], hrest⟩
  · intro keyType et m hm
    rw [handleTimeAuto_of_tmap db now isInsert doc _ hm]
    obtain ⟨after, res, heq, hrest⟩ := timeAutoTMap_valKeyed db.config now isInsert keyType et m
    exact ⟨after, res, by rw [heq], hrest⟩

/-- C7, amended, at a pointer to the map `{"name": "a"}` with both flags set. -/
theorem handleTimeAuto_caller_mapping_witness :
    ∃ after ret, handleTimeAuto autoStore (.str "t0")
        (.ptr (.mapv (some [("name", .str "a")]))) true
          = (storeMap (.ptr (.mapv (some [("name", .str "a")]))) after, .ok ret) ∧
      (∀ k ∈ GMap.keys (some [("name", Val.str "a")]),
        GMap.index after k = GMap.index (some [("name", Val.str "a")]) k) ∧
      (∀ k ∈ GMap.keys after, k ∈ GMap.keys (some [("name", Val.str "a")]) ∨
        k = "update_time" ∨ k = "create_time") ∧
      (GMap.len (some [("name", Val.str "a")]) = 0 →
        after = some [("name", Val.str "a")] ∧ ret = none) ∧
      (autoStore.config.UpdateTimeAuto = false ∧ autoStore.config.InsertTimeAuto = false →
        after = some [("name", Val.str "a")]) ∧
      (∀ r, ret = some r → ∀ k, mapIndex r k = GMap.index after k) :=
  (handleTimeAuto_caller_mapping autoStore (.str "t0") true
    (.ptr (.mapv (some [("name", .str "a")])))).1 (some [("name", .str "a")]) rfl

/-- C9 at a typed nil pointer, also behind further pointers: `handleTimeAuto` panics in
`v.Interface()` while building the error message; no error is returned. -/
theorem handleTimeAuto_nil_pointer_panics (db : Store) (now : Val) (isInsert : Bool) :
    (handleTimeAuto db now .nilptr isInsert).2 = .panic .interfaceOnZeroValue ∧
    (handleTimeAuto db now (.ptr .nilptr) isInsert).2 = .panic .interfaceOnZeroValue := by
  constructor <;> simp [handleTimeAuto, elemLoop]

/-- For a scalar or a sequence, also behind pointers, `handleTimeAuto` returns the
"is not a map or struct" error and no mapping. -/
theorem handleTimeAuto_scalar_or_seq (db : Store) (now : Val) (isInsert : Bool)
    (b : Bool) (i : Int) (s : String) (xs : List Val) :
    (handleTimeAuto db now (.bool b) isInsert).2 = .err (.notMapOrStruct (.bool b)) ∧
    (handleTimeAuto db now (.int i) isInsert).2 = .err (.notMapOrStruct (.int i)) ∧
    (handleTimeAuto db now (.str s) isInsert).2 = .err (.notMapOrStruct (.str s)) ∧
    (handleTimeAuto db now (.seq xs) isInsert).2 = .err (.notMapOrStruct (.seq xs)) ∧
    (handleTimeAuto db now (.ptr (.seq xs)) isInsert).2 = .err (.notMapOrStruct (.seq xs)) := by
  refine ⟨?_, ?_, ?_, ?_, ?_⟩ <;> simp [handleTimeAuto, elemLoop]

/-! ## `Replace` -/

/-- Every `c.Update` that `Replace` issues comes after a successful `handleTimeAuto`
and a successful read, and carries the stripped new document, with the old
`create_time` assigned when the old document has one. -/
theorem Replace_update_in_trace {σ : Type} (db : Store) (drv : Driver σ) (st : σ)
    (selector update sel : Any) (u : Upd)
    (h : Call.update sel u ∈ (Replace db drv st selector update).trace) :
    ∃ v old, (handleTimeAuto db (db.clock 0) update true).2 = .ok v ∧
      (drv.findOne st selector none).2 = .ok old ∧ sel = selector ∧
      ((∃ ct fs, mapIndex old "create_time" = some ct ∧ GMap.delete v "_id" = some fs ∧
          u = .doc (some (setMapIndex fs "create_time" ct))) ∨
        (mapIndex old "create_time" = none ∧ u = .doc (GMap.delete v "_id"))) := by
  unfold Replace DoWithContext at h
  cases hh : (handleTimeAuto db (db.clock 0) update true).2 with
  | err e => simp [hh] at h
  | panic p => simp [hh] at h
  | ok v =>
    simp only [hh] at h
    cases hf : (drv.findOne st selector none).2 with
    | error e => simp [FindOne, DoWithContext, selectOf, hf] at h
    | ok old =>
      refine ⟨v, old, rfl, rfl, ?_⟩
      simp only [FindOne, DoWithContext, selectOf, Option.map_none', hf] at h
      cases hc : mapIndex old "create_time" with
      | none =>
        simp only [hc] at h
        simp at h
        exact ⟨h.1, Or.inr ⟨rfl, h.2⟩⟩
      | some ct =>
        simp only [hc] at h
        cases hd : GMap.delete v "_id" with
        | none => simp [hd] at h
        | some fs =>
          simp only [hd] at h
          simp at h
          exact ⟨h.1, Or.inl ⟨ct, fs, rfl, rfl, h.2⟩⟩

/-- What `Replace` does once `handleTimeAuto` has returned the non-nil mapping `fs` and
the read has found `old` carrying `create_time = T`. -/
theorem Replace_trace_of_found {σ : Type} (db : Store) (drv : Driver σ) (st : σ)
    (selector update : Any) (fs old : Fields) (T : Val)
    (hh : (handleTimeAuto db (db.clock 0) update true).2 = .ok (some fs))
    (hread : (drv.findOne st selector none).2 = .ok old)
    (hT : mapIndex old "create_time" = some T) :
    (Replace db drv st selector update).trace
      = [.findOne selector none,
         .update selector (.doc (some (setMapIndex (mapDelete fs "_id") "create_time" T)))] := by
  simp [Replace, DoWithContext, FindOne, selectOf, hh, hread, hT, GMap.delete]

/-- C1. Let the driver answer `Replace`'s read with a document `old` that has
`create_time = T`. Then every document that `Replace` hands to `c.Update` has
`create_time = T`, whatever the replacement supplied and whatever `handleTimeAuto`
injected; and when the replacement normalises to at least one field, `Replace` does
issue that update, right after the read. -/
theorem Replace_preserves_create_time {σ : Type} (db : Store) (drv : Driver σ) (st : σ)
    (selector update : Any) (old : Fields) (T : Val)
    (hread : (drv.findOne st selector none).2 = .ok old)
    (hT : mapIndex old "create_time" = some T) :
    (∀ sel u, Call.update sel u ∈ (Replace db drv st selector update).trace →
      ∃ d, u = .doc (some d) ∧ mapIndex d "create_time" = some T) ∧
    (∀ fs, (handleTimeAuto db (db.clock 0) update true).2 = .ok (some fs) →
      ∃ d, (Replace db drv st selector update).trace
          = [.findOne selector none, .update selector (.doc (some d))] ∧
        mapIndex d "create_time" = some T) := by
  constructor
  · intro sel u h
    obtain ⟨v, old2, _, hf, _, hcase⟩ := Replace_update_in_trace db drv st selector update sel u h
    rw [hread] at hf
    cases hf
    rcases hcase with ⟨ct, fs, hct, _, hu⟩ | ⟨hnone, _⟩
    · rw [hT] at hct
      cases hct
      exact ⟨_, hu, mapIndex_setMapIndex_same _ _ _⟩
    · rw [hT] at hnone
      cases hnone
  · intro fs hh
    exact ⟨_, Replace_trace_of_found db drv st selector update fs old T hh hread hT,
      mapIndex_setMapIndex_same _ _ _⟩

/-- C1 at a replacement that supplies `create_time = "X"` over a stored document with
`create_time = "T"`. -/
theorem Replace_preserves_create_time_witness :
    (∀ sel u, Call.update sel u ∈ (Replace autoStore (oneDocDriver [("create_time", .str "T")]) ()
        (.mapv (some [("name", .str "a")]))
        (.mapv (some [("create_time", .str "X"), ("name", .str "b")]))).trace →
      ∃ d, u = .doc (some d) ∧ mapIndex d "create_time" = some (.str "T")) ∧
    (∀ fs, (handleTimeAuto autoStore (autoStore.clock 0)
        (.mapv (some [("create_time", .str "X"), ("name", .str "b")])) true).2 = .ok (some fs) →
      ∃ d, (Replace autoStore (oneDocDriver [("create_time", .str "T")]) ()
          (.mapv (some [("name", .str "a")]))
          (.mapv (some [("create_time", .str "X"), ("name", .str "b")]))).trace
          = [.findOne (.mapv (some [("name", .str "a")])) none,
             .update (.mapv (some [("name", .str "a")])) (.doc (some d))] ∧
        mapIndex d "create_time" = some (.str "T")) :=
  Replace_preserves_create_time autoStore (oneDocDriver [("create_time", .str "T")]) ()
    (.mapv (some [("name", .str "a")]))
    (.mapv (some [("create_time", .str "X"), ("name", .str "b")]))
    [("create_time", .str "T")] (.str "T") rfl (by decide)

/-- C10. When `Replace` issues its read and the driver answers it with an error (no
match: `mgo.ErrNotFound`), `Replace` returns an error that wraps it, the read is the
only driver call, and so no `c.Update` is issued. -/
theorem Replace_not_found_no_write {σ : Type} (db : Store) (drv : Driver σ) (st : σ)
    (selector update : Any) (e : Err)
    (hread : Call.findOne selector none ∈ (Replace db drv st selector update).trace)
    (hnf : (drv.findOne st selector none).2 = .error e) :
    (Replace db drv st selector update).res = .err (.oldDocNotFound e) ∧
    (Replace db drv st selector update).trace = [.findOne selector none] ∧
    ∀ sel u, Call.update sel u ∉ (Replace db drv st selector update).trace := by
  have hno : ∀ sel u, Call.update sel u ∉ (Replace db drv st selector update).trace := by
    intro sel u h
    obtain ⟨_, old, _, hf, _⟩ := Replace_update_in_trace db drv st selector update sel u h
    rw [hnf] at hf
    cases hf
  refine ⟨?_, ?_, hno⟩
  · unfold Replace DoWithContext at hread ⊢
    cases hh : (handleTimeAuto db (db.clock 0) update true).2 with
    | err e2 => simp [hh] at hread
    | panic p => simp [hh] at hread
    | ok v => simp [FindOne, DoWithContext, selectOf, hnf]
  · unfold Replace DoWithContext at hread ⊢
    cases hh : (handleTimeAuto db (db.clock 0) update true).2 with
    | err e2 => simp [hh] at hread
    | panic p => simp [hh] at hread
    | ok v => simp [FindOne, DoWithContext, selectOf, hnf]

/-- C10 at a replacement `{"name": "b"}` over an empty collection. -/
theorem Replace_not_found_no_write_witness :
    (Replace autoStore emptyDriver () (.mapv (some [("name", .str "a")]))
        (.mapv (some [("name", .str "b")]))).res = .err (.oldDocNotFound .notFound) ∧
    (Replace autoStore emptyDriver () (.mapv (some [("name", .str "a")]))
        (.mapv (some [("name", .str "b")]))).trace
      = [.findOne (.mapv (some [("name", .str "a")])) none] ∧
    ∀ sel u, Call.update sel u ∉ (Replace autoStore emptyDriver ()
        (.mapv (some [("name", .str "a")])) (.mapv (some [("name", .str "b")]))).trace :=
  Replace_not_found_no_write autoStore emptyDriver () (.mapv (some [("name", .str "a")]))
    (.mapv (some [("name", .str "b")])) .notFound (by decide) rfl

/-! ## `Insert` -/

theorem no_id_after_delete (r : GMap) : "_id" ∉ GMap.keys (GMap.delete r "_id") := by
  cases r with
  | none => simp [GMap.delete, GMap.keys]
  | some fs =>
    intro h
    have h2 := (mem_mapKeys_iff (mapDelete fs "_id") "_id").1 h
    rw [mapIndex_mapDelete_same] at h2
    cases h2

/-- The slice that the loop of `Insert` builds: one entry per document, in order, each
the result of `handleTimeAuto` on that document with `_id` deleted. -/
theorem insertLoop_ok (db : Store) (docs : List Any) :
    ∀ (n : Nat) (acc res : List GMap), insertLoop db n docs acc = .ok res →
      ∃ tail, res = acc ++ tail ∧
        List.Forall₂ (fun d v => ∃ now r, (handleTimeAuto db now d true).2 = .ok r ∧
          v = GMap.delete r "_id") docs tail := by
  induction docs with
  | nil =>
    intro n acc res h
    simp only [insertLoop, Res.ok.injEq] at h
    exact ⟨[], by simp [h], List.Forall₂.nil⟩
  | cons d rest ih =>
    intro n acc res h
    unfold insertLoop at h
    cases hh : (handleTimeAuto db (db.clock n) d true).2 with
    | err e => simp [hh] at h
    | panic p => simp [hh] at h
    | ok v =>
      simp only [hh] at h
      obtain ⟨tail, hres, hall⟩ := ih (n + 1) _ res h
      refine ⟨GMap.delete v "_id" :: tail, by simp [hres], ?_⟩
      exact List.Forall₂.cons ⟨db.clock n, v, hh, rfl⟩ hall

theorem insertLoop_of_maps (db : Store) (docs : List Any)
    (hdocs : ∀ d ∈ docs, ∃ m, elemLoop d = .val (.mapv m)) :
    ∀ (n : Nat) (acc : List GMap), ∃ res, insertLoop db n docs acc = .ok res := by
  induction docs with
  | nil =>
    intro n acc
    exact ⟨acc, rfl⟩
  | cons d rest ih =>
    intro n acc
    obtain ⟨m, hm⟩ := hdocs d (List.mem_cons_self _ _)
    have hrest : ∀ d ∈ rest, ∃ m, elemLoop d = .val (.mapv m) := fun d hd =>
      hdocs d (List.mem_cons_of_mem _ hd)
    unfold insertLoop
    rw [handleTimeAuto_of_map db (db.clock n) true d m hm]
    exact ih hrest (n + 1) _

theorem Insert_insert_in_trace {σ : Type} (db : Store) (drv : Driver σ) (st : σ)
    (docs : List Any) (out : List GMap)
    (h : Call.insert out ∈ (Insert db drv st docs).trace) :
    insertLoop db 0 docs [] = .ok out := by
  unfold Insert DoWithContext at h
  cases hl : insertLoop db 0 docs [] with
  | err e => simp [hl] at h
  | panic p => simp [hl] at h
  | ok res =>
    simp [hl] at h
    rw [h]

theorem Insert_trace_of_ok {σ : Type} (db : Store) (drv : Driver σ) (st : σ)
    (docs : List Any) (out : List GMap) (h : insertLoop db 0 docs [] = .ok out) :
    (Insert db drv st docs).trace = [.insert out] := by
  simp [Insert, DoWithContext, h]

theorem forall₂_mem_right {α β : Type} (R : α → β → Prop) (l1 : List α) (l2 : List β)
    (h : List.Forall₂ R l1 l2) : ∀ b ∈ l2, ∃ a ∈ l1, R a b := by
  induction h with
  | nil =>
    intro b hb
    cases hb
  | cons hab _ ih =>
    intro b hb
    rcases List.mem_cons.1 hb with hb | hb
    · subst hb
      exact ⟨_, List.mem_cons_self _ _, hab⟩
    · obtain ⟨a, ha, hr⟩ := ih b hb
      exact ⟨a, List.mem_cons_of_mem _ ha, hr⟩

/-- The `create_time` of the document that `Insert` hands on for a document that
`handleTimeAuto` sees as the non-empty map `m`, when `InsertTimeAuto` is set. -/
theorem create_time_after_insert (cfg : Config) (now : Val) (m : Fields)
    (hauto : cfg.InsertTimeAuto = true) :
    mapIndex (mapDelete (copyMap (injectTimes cfg now true m)) "_id") "create_time"
      = match mapIndex m "create_time" with
        | some x => some x
        | none => some now := by
  rw [mapIndex_mapDelete_ne _ _ _ (by decide), mapIndex_copyMap, mapIndex_injectTimes]
  cases h : mapIndex m "create_time" with
  | some x => rfl
  | none => simp [hauto]

/-- C2, as stated, fails: with `InsertTimeAuto` set, the empty document `{}` has no
`create_time`, and what `Insert` hands to `c.Insert` for it is the nil mapping, which
has no `create_time` either. -/
theorem Insert_empty_document_no_create_time :
    autoStore.config.InsertTimeAuto = true ∧
    mapIndex [] "create_time" = none ∧
    (Insert autoStore emptyDriver () [.mapv (some [])]).trace = [.insert [none]] ∧
    GMap.index none "create_time" = none := by
  decide

/-- C2, amended. While `InsertTimeAuto` is set, every `c.Insert` that `Insert` issues
carries one document per document passed, in order; for a passed document that
`handleTimeAuto` sees as a mapping `m` with at least one field (a map, or a struct
converted by `Struct2Map`, possibly behind pointers): if `m` has no `create_time`, the
document handed on has one, and if `m` has `create_time = x`, the document handed on
has `create_time = x`. When every passed document is a map, the `c.Insert` is issued. -/
theorem Insert_create_time {σ : Type} (db : Store) (drv : Driver σ) (st : σ)
    (docs : List Any) (hauto : db.config.InsertTimeAuto = true) :
    (∀ out, Call.insert out ∈ (Insert db drv st docs).trace →
      List.Forall₂ (fun d v => ∀ m,
        (elemLoop d = .val (.mapv (some m)) ∨
          ∃ fs, elemLoop d = .val (.structv fs) ∧ db.Struct2Map fs = .ok (some m)) →
        m ≠ [] →
        (mapIndex m "create_time" = none → (GMap.index v "create_time").isSome = true) ∧
        (∀ x, mapIndex m "create_time" = some x → GMap.index v "create_time" = some x))
        docs out) ∧
    ((∀ d ∈ docs, ∃ m, elemLoop d = .val (.mapv m)) →
      ∃ out, (Insert db drv st docs).trace = [.insert out] ∧ out.length = docs.length) := by
  constructor
  · intro out h
    obtain ⟨tail, hres, hall⟩ := insertLoop_ok db docs 0 [] out
      (Insert_insert_in_trace db drv st docs out h)
    simp only [List.nil_append] at hres
    subst hres
    refine List.Forall₂.imp ?_ hall
    intro d v hv m hm hne
    obtain ⟨now, r, hr, hv⟩ := hv
    have hr2 : r = some (copyMap (injectTimes db.config now true m)) := by
      rcases hm with hm | ⟨fs, hfs, hs⟩
      · rw [handleTimeAuto_of_map db now true d (some m) hm,
          timeAutoMap_nonempty _ _ _ _ hne] at hr
        cases hr
        rfl
      · rw [handleTimeAuto_of_struct db now true d fs (some m) hfs hs,
          timeAutoMap_nonempty _ _ _ _ hne] at hr
        cases hr
        rfl
    subst hr2
    subst hv
    have hc := create_time_after_insert db.config now m hauto
    constructor
    · intro hnone
      simp only [GMap.delete, GMap.index]
      rw [hc, hnone]
      rfl
    · intro x hx
      simp only [GMap.delete, GMap.index]
      rw [hc, hx]
  · intro hdocs
    obtain ⟨res, hres⟩ := insertLoop_of_maps db docs hdocs 0 []
    refine ⟨res, Insert_trace_of_ok db drv st docs res hres, ?_⟩
    obtain ⟨tail, ht, hall⟩ := insertLoop_ok db docs 0 [] res hres
    simp only [List.nil_append] at ht
    subst ht
    exact hall.length_eq.symm

/-- C2, amended, at the two documents `{"name": "a"}` and `{"create_time": "X"}`. -/
theorem Insert_create_time_witness :
    autoStore.config.InsertTimeAuto = true ∧
    ∃ out, (Insert autoStore emptyDriver ()
        [.mapv (some [("name", .str "a")]), .mapv (some [("create_time", .str "X")])]).trace
        = [.insert out] ∧ out.length = 2 :=
  ⟨rfl, (Insert_create_time autoStore emptyDriver ()
    [.mapv (some [("name", .str "a")]), .mapv (some [("create_time", .str "X")])] rfl).2
    (by
      intro d hd
      simp only [List.mem_cons, List.mem_singleton, List.not_mem_nil, or_false] at hd
      rcases hd with hd | hd <;> subst hd <;> exact ⟨_, rfl⟩)⟩

/-- C4. Whatever documents `Insert` is given, and whatever replacement `Replace` or
`ReplaceId` is given, no document handed to `c.Insert` or `c.Update` has an `_id` key. -/
theorem writes_carry_no_id {σ : Type} (db : Store) (drv : Driver σ) (st : σ)
    (docs : List Any) (selector update : Any) (id : Val) :
    (∀ out, Call.insert out ∈ (Insert db drv st docs).trace →
      ∀ v ∈ out, "_id" ∉ GMap.keys v) ∧
    (∀ sel u, Call.update sel u ∈ (Replace db drv st selector update).trace →
      ∃ d, u = .doc d ∧ "_id" ∉ GMap.keys d) ∧
    (∀ sel u, Call.update sel u ∈ (ReplaceId db drv st id update).trace →
      ∃ d, u = .doc d ∧ "_id" ∉ GMap.keys d) := by
  have hrep : ∀ (selector : Any) sel u,
      Call.update sel u ∈ (Replace db drv st selector update).trace →
      ∃ d, u = .doc d ∧ "_id" ∉ GMap.keys d := by
    intro selector sel u h
    obtain ⟨v, old, _, _, _, hcase⟩ := Replace_update_in_trace db drv st selector update sel u h
    rcases hcase with ⟨ct, fs, _, hd, hu⟩ | ⟨_, hu⟩
    · refine ⟨_, hu, ?_⟩
      have hno : "_id" ∉ GMap.keys (some fs) := hd ▸ no_id_after_delete v
      intro hmem
      apply hno
      have h1 := (mem_mapKeys_iff _ _).1 hmem
      rw [mapIndex_setMapIndex_ne _ _ _ _ (by decide)] at h1
      exact (mem_mapKeys_iff fs "_id").2 h1
    · exact ⟨_, hu, no_id_after_delete v⟩
  refine ⟨?_, hrep selector, hrep _⟩
  intro out h v hv
  obtain ⟨tail, hres, hall⟩ := insertLoop_ok db docs 0 [] out
    (Insert_insert_in_trace db drv st docs out h)
  simp only [List.nil_append] at hres
  subst hres
  obtain ⟨d, _, now, r, _, hr⟩ := forall₂_mem_right _ docs out hall v hv
  rw [hr]
  exact no_id_after_delete r

/-- C4 at the specification's example, `Insert` of `{_id: "x", name: "a"}`: the
document handed to `c.Insert` is `{name: "a"}`. -/
theorem writes_carry_no_id_witness :
    (Insert plainStore emptyDriver ()
        [.mapv (some [("_id", .str "x"), ("name", .str "a")])]).trace
      = [.insert [some [("name", .str "a")]]] ∧
    ∀ v ∈ [some [("name", Val.str "a")]], "_id" ∉ GMap.keys v :=
  ⟨by decide, (writes_carry_no_id plainStore emptyDriver ()
    [.mapv (some [("_id", .str "x"), ("name", .str "a")])] .nil .nil .null).1
    [some [("name", .str "a")]] (by decide)⟩

/-! ## `Modify` with `deletion = true` -/

/-- C5 at `Modify(selector, {"nick": ""}, ret, true)` with `UpdateTimeAuto` set: the
update issued is `{"$unset": {"nick": "", "update_time": now}}`; `update_time` has been
injected into the field-removal document. -/
theorem Modify_unset_injects_update_time :
    autoStore.config.UpdateTimeAuto = true ∧
    (Modify autoStore (oneDocDriver [("name", .str "a")]) () (some [("name", .str "a")])
        (some [("nick", .str "")]) [true]).trace
      = [.update (.mapv (some [("name", .str "a")]))
            (.op "$unset" (some [("nick", .str ""), ("update_time", .str "t0")])),
         .findOne (.mapv (some [("name", .str "a")])) none] := by
  decide

/-! ## `FindObjectId` -/

theorem decodeHex_some : ∀ (cs : List Char) (d : List Nat), decodeHex cs = some d →
    cs.length = 2 * d.length ∧ ∀ c ∈ cs, (hexVal c).isSome = true
  | [], d, h => by
    simp only [decodeHex, Option.some.injEq] at h
    subst h
    simp
  | [_], d, h => by simp [decodeHex] at h
  | p :: q :: rest, d, h => by
    unfold decodeHex at h
    cases hp : hexVal p with
    | none => simp [hp] at h
    | some a =>
      cases hq : hexVal q with
      | none => simp [hp, hq] at h
      | some b =>
        cases hr : decodeHex rest with
        | none => simp [hp, hq, hr] at h
        | some d2 =>
          simp only [hp, hq, hr, Option.some.injEq] at h
          subst h
          obtain ⟨hlen, hall⟩ := decodeHex_some rest d2 hr
          constructor
          · simp only [List.length_cons, hlen]
            omega
          · intro c hc
            simp only [List.mem_cons] at hc
            rcases hc with hc | hc | hc
            · rw [hc, hp]
              rfl
            · rw [hc, hq]
              rfl
            · exact hall c hc

theorem ObjectIdHex_malformed (id : String) (hbad : ¬ WellFormedHexId id) :
    ObjectIdHex id = .panic (.invalidObjectIdHex id) := by
  unfold ObjectIdHex
  cases hd : decodeHex id.data with
  | none => rfl
  | some d =>
    by_cases hl : d.length ≠ 12
    · simp [hl]
    · exfalso
      apply hbad
      obtain ⟨hlen, hall⟩ := decodeHex_some id.data d hd
      refine ⟨?_, hall⟩
      omega

/-- C6, as stated, fails: `FindObjectId` with the empty identifier does not return an
error, it panics in `bson.ObjectIdHex`. -/
theorem FindObjectId_empty_id_panics :
    ¬ WellFormedHexId "" ∧
    (FindObjectId emptyDriver () "" none).res = .panic (.invalidObjectIdHex "") ∧
    ∀ e, (FindObjectId emptyDriver () "" none).res ≠ .err e := by
  have h : (FindObjectId emptyDriver () "" none).res = .panic (.invalidObjectIdHex "") := by
    decide
  refine ⟨fun hw => absurd hw.1 (by decide), h, ?_⟩
  intro e he
  rw [h] at he
  cases he

/-- C6, amended. For every identifier that is not a well-formed hexadecimal object id,
`FindObjectId` issues no call to the driver and returns no error: `bson.ObjectIdHex`
panics with "invalid input to ObjectIdHex". -/
theorem FindObjectId_malformed_panics {σ : Type} (drv : Driver σ) (st : σ) (id : String)
    (picker : Option (List String)) (hbad : ¬ WellFormedHexId id) :
    (FindObjectId drv st id picker).trace = [] ∧
    (FindObjectId drv st id picker).res = .panic (.invalidObjectIdHex id) := by
  simp [FindObjectId, DoWithContext, ObjectIdHex_malformed id hbad]

/-- C6, amended, at the identifier `"603a0816"`, which is hexadecimal but too short. -/
theorem FindObjectId_malformed_panics_witness :
    ¬ WellFormedHexId "603a0816" ∧
    (FindObjectId (oneDocDriver [("name", .str "a")]) () "603a0816" (some ["name"])).trace = [] ∧
    (FindObjectId (oneDocDriver [("name", .str "a")]) () "603a0816" (some ["name"])).res
      = .panic (.invalidObjectIdHex "603a0816") :=
  ⟨fun hw => absurd hw.1 (by decide),
    FindObjectId_malformed_panics (oneDocDriver [("name", .str "a")]) () "603a0816"
      (some ["name"]) (fun hw => absurd hw.1 (by decide))⟩

/-- For a well-formed identifier `FindObjectId` issues exactly one `FindId` lookup:
here the one of the source's comment, `603a081694ea2e906792a8f1`. -/
theorem FindObjectId_well_formed_example :
    (FindObjectId (oneDocDriver [("name", .str "a")]) () "603a081694ea2e906792a8f1" none).trace
      = [.findId [96, 58, 8, 22, 148, 234, 46, 144, 103, 146, 168, 241] none] ∧
    (FindObjectId (oneDocDriver [("name", .str "a")]) () "603a081694ea2e906792a8f1" none).res
      = .ok [("name", .str "a")] := by
  decide

/-! ## Documents with zero fields -/

theorem storeMap_self (doc : Any) (m : GMap) (h : elemLoop doc = .val (.mapv m)) :
    storeMap doc m = doc := by
  induction doc with
  | ptr t ih =>
    simp only [elemLoop] at h
    simp [storeMap, ih h]
  | mapv m2 =>
    simp only [elemLoop, RValue.val.injEq, Any.mapv.injEq] at h
    simp [storeMap, h]
  | _ => simp [elemLoop] at h

/-- `handleTimeAuto` on a document with zero fields: the nil mapping, no error, and the
caller's value as it was. -/
theorem handleTimeAuto_zero_fields (db : Store) (now : Val) (isInsert : Bool) (doc : Any)
    (hzero : doc = .nil ∨ (∃ m, elemLoop doc = .val (.mapv m) ∧ GMap.len m = 0) ∨
      (∃ fs m, elemLoop doc = .val (.structv fs) ∧ db.Struct2Map fs = .ok m ∧
        GMap.len m = 0)) :
    handleTimeAuto db now doc isInsert = (doc, .ok none) := by
  rcases hzero with h | ⟨m, hm, hlen⟩ | ⟨fs, m, hfs, hs, hlen⟩
  · subst h
    rfl
  · have h2 := handleTimeAuto_of_map db now isInsert doc m hm
    rw [timeAutoMap_empty _ _ _ _ hlen] at h2
    have h1 : (handleTimeAuto db now doc isInsert).1 = doc := by
      have hs := storeMap_self doc m hm
      cases doc <;> simp_all [handleTimeAuto, elemLoop, timeAutoMap_empty]
    exact Prod.ext h1 h2
  · have h2 := handleTimeAuto_of_struct db now isInsert doc fs m hfs hs
    rw [timeAutoMap_empty _ _ _ _ hlen] at h2
    have h1 : (handleTimeAuto db now doc isInsert).1 = doc := by
      cases doc <;> simp_all [handleTimeAuto, elemLoop]
    exact Prod.ext h1 h2

/-- C8, as stated, fails: the nil mapping returned for a document with zero fields is
not skipped. `Insert` of a nil document hands it to `c.Insert`; `Replace` with `{}`
over a stored document without `create_time` hands it to `c.Update`; and `Replace`
with `{}` over a stored document with `create_time` assigns into it and panics. -/
theorem zero_field_result_not_skipped :
    (handleTimeAuto autoStore (.str "t0") (.mapv (some [])) true).2 = .ok none ∧
    (Insert autoStore emptyDriver () [.nil]).trace = [.insert [none]] ∧
    (Replace autoStore (oneDocDriver [("name", .str "a")]) () (.mapv (some [("name", .str "a")]))
        (.mapv (some []))).trace
      = [.findOne (.mapv (some [("name", .str "a")])) none,
         .update (.mapv (some [("name", .str "a")])) (.doc none)] ∧
    (Replace autoStore (oneDocDriver [("create_time", .str "T")]) () (.mapv (some [("name", .str "a")]))
        (.mapv (some []))).res = .panic .assignNilMap := by
  decide

/-- C8, amended. For every document with zero fields (the nil document, an empty or nil
map, a struct that `Struct2Map` converts to an empty or nil map, possibly behind
pointers), `handleTimeAuto` returns the nil mapping and no error, injects nothing and
leaves the caller's value as it was; its callers go on with that result: `Insert`
hands the nil mapping to `c.Insert`, and `Replace` and `ReplaceAll`, when their read
finds a document without `create_time`, hand it to `c.Update` and `c.UpdateAll`. -/
theorem zero_field_document {σ : Type} (db : Store) (drv : Driver σ) (st : σ)
    (selector doc : Any) (now : Val) (isInsert : Bool)
    (hzero : doc = .nil ∨ (∃ m, elemLoop doc = .val (.mapv m) ∧ GMap.len m = 0) ∨
      (∃ fs m, elemLoop doc = .val (.structv fs) ∧ db.Struct2Map fs = .ok m ∧
        GMap.len m = 0)) :
    handleTimeAuto db now doc isInsert = (doc, .ok none) ∧
    (Insert db drv st [doc]).trace = [.insert [none]] ∧
    (∀ old, (drv.findOne st selector none).2 = .ok old → mapIndex old "create_time" = none →
      (Replace db drv st selector doc).trace
        = [.findOne selector none, .update selector (.doc none)] ∧
      (ReplaceAll db drv st selector doc).trace
        = [.findOne selector none, .updateAll selector (.doc none)]) := by
  have h0 := handleTimeAuto_zero_fields db (db.clock 0) true doc hzero
  refine ⟨handleTimeAuto_zero_fields db now isInsert doc hzero, ?_, ?_⟩
  · simp [Insert, DoWithContext, insertLoop, h0, GMap.delete]
  · intro old hread hnone
    constructor
    · simp [Replace, DoWithContext, FindOne, selectOf, h0, hread, hnone, GMap.delete]
    · simp [ReplaceAll, DoWithContext, FindOne, selectOf, h0, hread, hnone]

/-- C8, amended, at a pointer to the empty map. -/
theorem zero_field_document_witness :
    handleTimeAuto autoStore (.str "t0") (.ptr (.mapv (some []))) true
      = (.ptr (.mapv (some [])), .ok none) ∧
    (Insert autoStore (oneDocDriver [("name", .str "a")]) () [.ptr (.mapv (some []))]).trace
      = [.insert [none]] ∧
    (∀ old, ((oneDocDriver [("name", .str "a")]).findOne () .nil none).2 = .ok old →
      mapIndex old "create_time" = none →
      (Replace autoStore (oneDocDriver [("name", .str "a")]) () .nil
          (.ptr (.mapv (some [])))).trace
        = [.findOne .nil none, .update .nil (.doc none)] ∧
      (ReplaceAll autoStore (oneDocDriver [("name", .str "a")]) () .nil
          (.ptr (.mapv (some [])))).trace
        = [.findOne .nil none, .updateAll .nil (.doc none)]) :=
  zero_field_document autoStore (oneDocDriver [("name", .str "a")]) () .nil
    (.ptr (.mapv (some []))) (.str "t0") true (Or.inr (Or.inl ⟨some [], rfl, rfl⟩))

/-! ## `Modify` and `ModifyAll` with an empty partial document -/

/-- C11. For every selector, every `deletion` and every driver state, `Modify` called
with a partial document of zero fields (the empty or the nil `bson.M`) returns the
error "doc does not allow nil!" and issues no driver call: neither the `c.Update` nor
the refetch; the driver state is the one it started from. -/
theorem Modify_empty_update {σ : Type} (db : Store) (drv : Driver σ) (st : σ)
    (selector doc : GMap) (deletion : List Bool) (hzero : GMap.len doc = 0) :
    (Modify db drv st selector doc deletion).res = .err .docNil ∧
    (Modify db drv st selector doc deletion).trace = [] ∧
    (Modify db drv st selector doc deletion).st = st := by
  simp [Modify, hzero]

/-- C11 at the empty and at the nil partial document, over a stored document. -/
theorem Modify_empty_update_witness :
    ((Modify autoStore (oneDocDriver [("name", .str "a")]) () (some [("name", .str "a")])
        (some []) [true]).res = .err .docNil ∧
      (Modify autoStore (oneDocDriver [("name", .str "a")]) () (some [("name", .str "a")])
        (some []) [true]).trace = [] ∧
      (Modify autoStore (oneDocDriver [("name", .str "a")]) () (some [("name", .str "a")])
        (some []) [true]).st = ()) ∧
    (Modify autoStore (oneDocDriver [("name", .str "a")]) () (some [("name", .str "a")])
        none []).res = .err .docNil :=
  ⟨Modify_empty_update autoStore (oneDocDriver [("name", .str "a")]) ()
      (some [("name", .str "a")]) (some []) [true] rfl,
    (Modify_empty_update autoStore (oneDocDriver [("name", .str "a")]) ()
      (some [("name", .str "a")]) none [] rfl).1⟩

/-- Whatever the partial document, `ModifyAll` issues exactly one `c.UpdateAll`, with
the document under the chosen operator, and returns what the driver answers. -/
theorem ModifyAll_issues_update {σ : Type} (drv : Driver σ) (st : σ)
    (selector doc : GMap) (deletion : List Bool) :
    (ModifyAll drv st selector doc deletion).trace
      = [.updateAll (.mapv selector) (.op (settingOf deletion) doc)] ∧
    ((drv.updateAll st (.mapv selector) (.op (settingOf deletion) doc)).2.2 = none →
      (ModifyAll drv st selector doc deletion).res
        = .ok (drv.updateAll st (.mapv selector) (.op (settingOf deletion) doc)).2.1) := by
  constructor
  · simp [ModifyAll, DoWithContext]
  · intro h
    simp [ModifyAll, DoWithContext, h]

/-- C12 at `ModifyAll(selector, bson.M{}, true)` and at the nil `bson.M` with no
`deletion`: no error is returned and the bulk updates `{"$unset": {}}` and
`{"$set": nil}` are issued to the driver. -/
theorem ModifyAll_empty_update_reaches_driver :
    GMap.len (some []) = 0 ∧ GMap.len none = 0 ∧
    (ModifyAll (oneDocDriver [("name", .str "a")]) () (some [("name", .str "a")])
        (some []) [true]).trace
      = [.updateAll (.mapv (some [("name", .str "a")])) (.op "$unset" (some []))] ∧
    (ModifyAll (oneDocDriver [("name", .str "a")]) () (some [("name", .str "a")])
        (some []) [true]).res = .ok none ∧
    (ModifyAll (oneDocDriver [("name", .str "a")]) () (some [("name", .str "a")])
        none []).trace
      = [.updateAll (.mapv (some [("name", .str "a")])) (.op "$set" none)] ∧
    (ModifyAll (oneDocDriver [("name", .str "a")]) () (some [("name", .str "a")])
        none []).res = .ok none := by
  decide

end Mongoc
